import Mathlib

/-!
# Census trees, the census registry and the vote scrutinizer

A shallow embedding of `tree/tree.go` (claim codec, proofs, dumps), of
`api/censusdb/censusdb.go` (the registry of census trees) and of
`vochain/scrutinizer` (the tally of the votes, the list of processes, the
index of transactions), with the properties of the specification stated over
it.

Bytes are `Fin 256`, Go slices and fixed-size arrays are lists (the length
of an array is a lemma), a Go `(value, error)` result is an `Except String`,
and a function that can panic returns an `Option`, `none` being the panic.
-/

namespace Vocdoni

/-- One octet. -/
abbrev Byte := Fin 256

/-! ## tree/tree.go : the claim codec -/

/-- The constant `MaxClaimSize = 120`. -/
def MaxClaimSize : Nat := 120

/-- Go's builtin `copy(dst, src)`: the first `min (len dst) (len src)` bytes of
`dst` are overwritten with those of `src`, the rest of `dst` is kept. -/
def goCopy (dst src : List Byte) : List Byte :=
  src.take dst.length ++ dst.drop src.length

/-- The loop of `doPadding`, `for i := len(*data); i < MaxClaimSize; i++`, by
the number of rounds left (`MaxClaimSize - i`): each round appends one zero
byte. -/
def doPaddingLoop : Nat → List Byte → List Byte
  | 0, data => data
  | n + 1, data => doPaddingLoop n (data ++ [0])

/-- The function `doPadding(data *[]byte)`: the loop starts at `i = len(*data)`. -/
def doPadding (data : List Byte) : List Byte :=
  doPaddingLoop (MaxClaimSize - data.length) data

/-- The two slots handed to `claims.NewClaimBasic(indexSlot, dataSlot)`:
`indexSlot` is a `[112]byte`, `dataSlot` a `[MaxClaimSize]byte`. -/
structure ClaimBasic where
  indexSlot : List Byte
  dataSlot : List Byte
deriving DecidableEq, Repr

deriving instance DecidableEq for Except

/-- Go's slice expression `data[:n]` on a slice whose capacity is its length:
the first `n` bytes, and a panic (`none`) when `n` is above the length. -/
def sliceTo (data : List Byte) (n : Nat) : Option (List Byte) :=
  if n ≤ data.length then some (data.take n) else none

/-- The function `getClaimFromData`: both slots start zeroed; the index slot
receives `data[:400/8]`, the data slot `data[:MaxClaimSize]`. It panics
(`none`) on data shorter than `MaxClaimSize`, one of the slice expressions
being out of range. -/
def getClaimFromData (data : List Byte) : Option ClaimBasic :=
  match sliceTo data (400 / 8) with
  | none => none
  | some index =>
    match sliceTo data MaxClaimSize with
    | none => none
    | some value =>
      some { indexSlot := goCopy (List.replicate 112 0) index
             dataSlot := goCopy (List.replicate MaxClaimSize 0) value }

/-- The method `Tree.Claim`: too long a payload is an error, a short one is
padded, then the claim is built; `none` when it panics. -/
def Claim (data : List Byte) : Option (Except String ClaimBasic) :=
  if data.length > MaxClaimSize then some (Except.error "claim data too large")
  else
    let data := if data.length < MaxClaimSize then doPadding data else data
    match getClaimFromData data with
    | none => none
    | some e => some (Except.ok e)

/-- The slots that `getClaimFromData` fills from data of `MaxClaimSize` bytes at
least: the first 50 bytes and 62 zero bytes, and the first `MaxClaimSize`
bytes. -/
def slotsOf (data : List Byte) : ClaimBasic :=
  { indexSlot := data.take 50 ++ List.replicate 62 0
    dataSlot := data.take MaxClaimSize }

/-- The filling of the buffer in the leaf visitor of `DumpPlain`:
`for _, e := range n.Entry.Value() { copy(data[i:i+len(e)], e[:]); i = i + len(e) }`.
A slice expression that leaves the buffer panics (`none`). -/
def fillLeafData : List (List Byte) → Nat → List Byte → Option (List Byte)
  | [], _, data => some data
  | e :: es, i, data =>
    if i + e.length ≤ data.length then
      fillLeafData es (i + e.length)
        (data.take i ++ goCopy ((data.drop i).take e.length) e ++ data.drop (i + e.length))
    else none

/-- The call `bytes.Replace(s, []byte("\x00"), nil, -1)`: every occurrence of
the zero byte is replaced by nothing. -/
def removeZeroBytes (s : List Byte) : List Byte :=
  s.filter (fun b => b != 0)

/-- The decoding of a leaf in `DumpPlain`, up to `dataClean`: the value fields
of the entry are copied one after the other into a zeroed
`[MaxClaimSize + 8]byte`, which is then cleaned. -/
def decodeLeaf (value : List (List Byte)) : Option (List Byte) :=
  (fillLeafData value 0 (List.replicate (MaxClaimSize + 8) 0)).map removeZeroBytes

/-- Modelled from the spec: `Entry().Value()` of the claims library is not
under src/. The leaf "stores the value slot in its value fields"; here the
120 bytes of the slot go, in order, into four 32-byte fields of 30 payload
bytes each, every field starting with two zero bytes. -/
def entryValue (c : ClaimBasic) : List (List Byte) :=
  (List.range 4).map (fun k => [0, 0] ++ (c.dataSlot.drop (30 * k)).take 30)

/-- What the specification calls stripping the trailing zero bytes. -/
def stripTrailingZeros (p : List Byte) : List Byte :=
  p.rdropWhile (fun b => b == 0)

/-- A layout of the value fields that only adds zero bytes to the data slot and
fits the buffer of `DumpPlain`. -/
def ZeroPadLayout (value : ClaimBasic → List (List Byte)) : Prop :=
  ∀ c : ClaimBasic, c.dataSlot.length = MaxClaimSize →
    (value c).flatten.length ≤ MaxClaimSize + 8 ∧
    removeZeroBytes (value c).flatten = removeZeroBytes c.dataSlot

/-! ## tree/tree.go : the tree and its proofs

The Merkle tree itself (`merkletree`), the hashing of an entry (`claims`) and
the hex codec (`common3`) are libraries outside this repository. They are a
parameter of the functions of `tree.go`: `τ` is the state of a tree, `π` a
`merkletree.Proof`. -/

/-- A `merkletree.Hash`, a `[32]byte`. -/
abbrev Hash := { l : List Byte // l.length = 32 }

/-- The library calls made by `tree.go`. A Go `error` result is an
`Option String` (`none` is `nil`); `addEntry` returns the error and the state
the tree is left in. -/
structure MerkleTreeLib (τ π : Type) where
  /-- `e.Entry().HIndex()` of a claim `e`. -/
  hIndex : ClaimBasic → Except String Hash
  /-- `e.Entry().HValue()` of a claim `e`. -/
  hValue : ClaimBasic → Except String Hash
  /-- `t.Tree.AddEntry(e.Entry())`. -/
  addEntry : τ → ClaimBasic → Option String × τ
  /-- `t.Tree.GenerateProof(hash, nil)`. -/
  generateProof : τ → Hash → Except String π
  /-- The field `mp.Existence`. -/
  existence : π → Bool
  /-- `mp.Bytes()`. -/
  proofBytes : π → List Byte
  /-- `merkletree.NewProofFromBytes(mpBytes)`. -/
  newProofFromBytes : List Byte → Except String π
  /-- `merkletree.VerifyProof(&rootHash, mp, hindex, hvalue)`. -/
  verifyProof : Hash → π → Hash → Hash → Bool
  /-- `t.Tree.RootKey().Bytes()`. -/
  rootKeyBytes : τ → List Byte
  /-- `common3.HexEncode`. -/
  hexEncode : List Byte → String
  /-- `common3.HexDecode`. -/
  hexDecode : String → Except String (List Byte)

/-- The method `Tree.AddClaim`: a short payload is padded, the claim is built
with `getClaimFromData` and its entry is added to the tree. There is no test
of the length against `MaxClaimSize`. The error and the tree it leaves, `none`
when it panics. -/
def AddClaim {τ π : Type} (lib : MerkleTreeLib τ π) (t : τ) (data : List Byte) :
    Option (Option String × τ) :=
  let data := if data.length < MaxClaimSize then doPadding data else data
  match getClaimFromData data with
  | none => none
  | some e => some (lib.addEntry t e)

/-- The method `Tree.GenProof`: the proof of the claim of `data` in hex, the
empty string when the tree has no such leaf; `none` when it panics. -/
def GenProof {τ π : Type} (lib : MerkleTreeLib τ π) (t : τ) (data : List Byte) :
    Option (Except String String) :=
  let data := if data.length < MaxClaimSize then doPadding data else data
  match Claim data with
  | none => none
  | some (Except.error err) => some (Except.error err)
  | some (Except.ok e) =>
    match lib.hIndex e with
    | Except.error err => some (Except.error err)
    | Except.ok hash =>
      match lib.generateProof t hash with
      | Except.error err => some (Except.error err)
      | Except.ok mp =>
        if !lib.existence mp then some (Except.ok "")
        else some (Except.ok (lib.hexEncode (lib.proofBytes mp)))

/-- The function `stringToHash`: the hex string is decoded and copied into a
zeroed `merkletree.Hash` (`copy(rootHash[:32], rootBytes)`). -/
def stringToHash {τ π : Type} (lib : MerkleTreeLib τ π) (hash : String) : Except String Hash :=
  match lib.hexDecode hash with
  | Except.error err => Except.error err
  | Except.ok rootBytes =>
    Except.ok ⟨goCopy (List.replicate 32 0) rootBytes, by
      simp only [goCopy, List.length_append, List.length_take, List.length_drop,
        List.length_replicate]
      omega⟩

/-- The standalone function `CheckProof(root, mpHex, data)`, `none` when it
panics. -/
def CheckProof {τ π : Type} (lib : MerkleTreeLib τ π) (root mpHex : String)
    (data : List Byte) : Option (Except String Bool) :=
  match lib.hexDecode mpHex with
  | Except.error err => some (Except.error err)
  | Except.ok mpBytes =>
    match lib.newProofFromBytes mpBytes with
    | Except.error err => some (Except.error err)
    | Except.ok mp =>
      match stringToHash lib root with
      | Except.error err => some (Except.error err)
      | Except.ok rootHash =>
        let data := if data.length < MaxClaimSize then doPadding data else data
        match getClaimFromData data with
        | none => none
        | some e =>
          match lib.hValue e with
          | Except.error err => some (Except.error err)
          | Except.ok hvalue =>
            match lib.hIndex e with
            | Except.error err => some (Except.error err)
            | Except.ok hindex => some (Except.ok (lib.verifyProof rootHash mp hindex hvalue))

/-- The method `Tree.Root`. -/
def Root {τ π : Type} (lib : MerkleTreeLib τ π) (t : τ) : String :=
  lib.hexEncode (lib.rootKeyBytes t)

/-- The tree after a sequence of `AddClaim` calls, whatever error each call
returns; `none` when one of them panics. -/
def addClaims {τ π : Type} (lib : MerkleTreeLib τ π) (t : τ) : List (List Byte) → Option τ
  | [] => some t
  | p :: ps =>
    match AddClaim lib t p with
    | none => none
    | some r => addClaims lib r.2 ps

/-- In the sequence `ps` of `AddClaim` calls on the tree `t`, a call with the
payload `p` returned no error. -/
def AddedClaim {τ π : Type} (lib : MerkleTreeLib τ π) (t : τ) (ps : List (List Byte))
    (p : List Byte) : Prop :=
  ∃ pre post t0 t1, ps = pre ++ p :: post ∧ addClaims lib t pre = some t0 ∧
    AddClaim lib t0 p = some (none, t1)

/-- The tree after a sequence of `AddEntry` calls of the library. -/
def addEntries {τ π : Type} (lib : MerkleTreeLib τ π) (t : τ) : List ClaimBasic → τ
  | [] => t
  | c :: cs => addEntries lib (lib.addEntry t c).2 cs

/-- What `tree.go` relies on from the libraries, for the trees grown from
`empty` by `AddEntry`: the hex codec and the proof codec decode what they
encode, a root key has 32 bytes, and an entry whose `AddEntry` returned no
error has, in every later state of the tree, a proof of existence that
`VerifyProof` accepts against the root key of that state. -/
structure MerkleTreeLaws {τ π : Type} (lib : MerkleTreeLib τ π) (empty : τ) : Prop where
  hex_roundtrip : ∀ bs, lib.hexDecode (lib.hexEncode bs) = Except.ok bs
  proof_roundtrip : ∀ t h mp, lib.generateProof t h = Except.ok mp →
    lib.newProofFromBytes (lib.proofBytes mp) = Except.ok mp
  root_length : ∀ t, (lib.rootKeyBytes t).length = 32
  complete : ∀ pre c post, (lib.addEntry (addEntries lib empty pre) c).1 = none →
    ∃ hi hv mp, lib.hIndex c = Except.ok hi ∧ lib.hValue c = Except.ok hv ∧
      lib.generateProof (addEntries lib empty (pre ++ c :: post)) hi = Except.ok mp ∧
      lib.existence mp = true ∧
      ∀ r : Hash, r.val = lib.rootKeyBytes (addEntries lib empty (pre ++ c :: post)) →
        lib.verifyProof r mp hi hv = true

/-- One lower-case hexadecimal digit. -/
def hexDigit (n : Nat) : Char :=
  if n < 10 then Char.ofNat (48 + n) else Char.ofNat (87 + n)

/-- The verb `%x` of `fmt` on a `[]byte`: two lower-case digits per byte. -/
def hexString (bs : List Byte) : String :=
  String.mk (bs.flatMap (fun b => [hexDigit (b.val / 16), hexDigit (b.val % 16)]))

/-! ### A Merkle tree to run `tree.go` on

Modelled from the spec: the libraries are not under src/, and the
specification only says that the tree is a Merkle tree over
`(indexHash, valueHash)` leaves of bounded depth, that a proof is an
inclusion path, and that it is verified against the root. What follows is a
binary tree in which a leaf sits on the path given by the bits of its index
hash, as shallow as the other leaves allow, with a stand-in digest. -/

/-- Modelled from the spec: the library is not under src/; the depth bound of
the tree, `140` in `Tree.Init`. -/
def maxLevels : Nat := 140

/-- Modelled from the spec: the library is not under src/; the hash of an empty
subtree, 32 zero bytes. -/
def HashZero : Hash := ⟨List.replicate 32 0, by simp⟩

/-- Modelled from the spec: the library is not under src/; the 32 low bytes of a
number, low byte first. -/
def bytes32 (n : Nat) : Hash :=
  ⟨(List.range 32).map (fun i => Fin.ofNat (n / 256 ^ i)), by simp⟩

/-- Modelled from the spec: the library is not under src/; a stand-in for its
hash function. -/
def digest (bs : List Byte) : Hash :=
  bytes32 (bs.foldl (fun acc b => acc * 257 + b.val + 1) 0)

/-- Modelled from the spec: the library is not under src/; the index hash of a
claim, from its index slot. -/
def hIndexOf (c : ClaimBasic) : Hash := digest c.indexSlot

/-- Modelled from the spec: the library is not under src/; the value hash of a
claim, from its data slot. -/
def hValueOf (c : ClaimBasic) : Hash := digest c.dataSlot

/-- Modelled from the spec: the library is not under src/; the key of a leaf,
from its two hashes. -/
def leafKey (hIndex hValue : Hash) : Hash := digest ([1] ++ hIndex.val ++ hValue.val)

/-- Modelled from the spec: the library is not under src/; the key of an inner
node, from the keys of its children. -/
def middleKey (l r : Hash) : Hash := digest ([2] ++ l.val ++ r.val)

/-- Modelled from the spec: the library is not under src/; a tree is empty, a
leaf holding a claim, or an inner node with two children. -/
inductive Node where
  | empty : Node
  | leaf : ClaimBasic → Node
  | middle : Node → Node → Node
deriving DecidableEq, Repr

/-- Modelled from the spec: the library is not under src/; the key of a node;
the key of the root is the root of the tree. -/
def Node.key : Node → Hash
  | Node.empty => HashZero
  | Node.leaf c => leafKey (hIndexOf c) (hValueOf c)
  | Node.middle l r => middleKey l.key r.key

/-- Modelled from the spec: the library is not under src/; the side taken at
level `n` on the path of an index hash, its bit `n` (true is right). -/
def pathBit (h : Hash) (n : Nat) : Bool :=
  (h.val.getD (n / 8) 0).val.testBit (n % 8)

/-- Modelled from the spec: the library is not under src/; a new leaf and the
leaf it met at level `lvl` are pushed down until their paths part; `fuel` bounds
the levels gone down. -/
def pushLeaf (newLeaf oldLeaf : ClaimBasic) : Nat → Nat → Except String Node
  | 0, _ => Except.error "reached max level"
  | fuel + 1, lvl =>
    if lvl > maxLevels - 2 then Except.error "reached max level"
    else if pathBit (hIndexOf newLeaf) lvl = pathBit (hIndexOf oldLeaf) lvl then
      match pushLeaf newLeaf oldLeaf fuel (lvl + 1) with
      | Except.error err => Except.error err
      | Except.ok next =>
        if pathBit (hIndexOf newLeaf) lvl then Except.ok (Node.middle Node.empty next)
        else Except.ok (Node.middle next Node.empty)
    else if pathBit (hIndexOf newLeaf) lvl then
      Except.ok (Node.middle (Node.leaf oldLeaf) (Node.leaf newLeaf))
    else Except.ok (Node.middle (Node.leaf newLeaf) (Node.leaf oldLeaf))

/-- Modelled from the spec: the library is not under src/; a leaf is added below
the node met at level `lvl`; an index hash that is in the tree is refused. -/
def addLeaf (newLeaf : ClaimBasic) : Node → Nat → Except String Node
  | Node.empty, lvl =>
    if lvl > maxLevels - 1 then Except.error "reached max level"
    else Except.ok (Node.leaf newLeaf)
  | Node.leaf oldLeaf, lvl =>
    if lvl > maxLevels - 1 then Except.error "reached max level"
    else if hIndexOf oldLeaf = hIndexOf newLeaf then
      Except.error "the entry index already exists in the tree"
    else pushLeaf newLeaf oldLeaf maxLevels lvl
  | Node.middle l r, lvl =>
    if lvl > maxLevels - 1 then Except.error "reached max level"
    else if pathBit (hIndexOf newLeaf) lvl then
      match addLeaf newLeaf r (lvl + 1) with
      | Except.error err => Except.error err
      | Except.ok next => Except.ok (Node.middle l next)
    else
      match addLeaf newLeaf l (lvl + 1) with
      | Except.error err => Except.error err
      | Except.ok next => Except.ok (Node.middle next r)

/-- The leaf of the claim `c` is met on the path of its index hash, from the
node met at level `lvl`, above the depth bound. -/
def Node.holds (c : ClaimBasic) : Node → Nat → Prop
  | Node.empty, _ => False
  | Node.leaf c1, lvl => c1 = c ∧ lvl < maxLevels
  | Node.middle l r, lvl =>
    lvl < maxLevels ∧
      if pathBit (hIndexOf c) lvl then Node.holds c r (lvl + 1) else Node.holds c l (lvl + 1)

/-- Modelled from the spec: the library is not under src/; an inclusion path.
`siblings` holds, level by level from the root, the key of the sibling (`none`
for an empty one); `nodeAux` is the other leaf found when the entry is not
there. -/
structure SmtProof where
  Existence : Bool
  siblings : List (Option Hash)
  nodeAux : Option (Hash × Hash)
deriving DecidableEq

/-- Modelled from the spec: the library is not under src/; the path of an index
hash is walked from the node met at level `acc.length`, the siblings met are
collected in `acc`. -/
def genProofFrom (hIndex : Hash) : Node → List (Option Hash) → Except String SmtProof
  | Node.empty, acc =>
    if acc.length < maxLevels then
      Except.ok { Existence := false, siblings := acc, nodeAux := none }
    else Except.error "the entry index does not exist in tree"
  | Node.leaf c, acc =>
    if acc.length < maxLevels then
      if hIndex = hIndexOf c then
        Except.ok { Existence := true, siblings := acc, nodeAux := none }
      else
        Except.ok { Existence := false, siblings := acc,
                    nodeAux := some (hIndexOf c, hValueOf c) }
    else Except.error "the entry index does not exist in tree"
  | Node.middle l r, acc =>
    if acc.length < maxLevels then
      if pathBit hIndex acc.length then
        genProofFrom hIndex r (acc ++ [if l.key ≠ HashZero then some l.key else none])
      else
        genProofFrom hIndex l (acc ++ [if r.key ≠ HashZero then some r.key else none])
    else Except.error "the entry index does not exist in tree"

/-- Modelled from the spec: the library is not under src/; the key computed from
the bottom of an inclusion path up to level `lvl`, `mid` being the key at the
bottom. -/
def rootFrom (hIndex : Hash) : Nat → List (Option Hash) → Hash → Hash
  | _, [], mid => mid
  | lvl, s :: rest, mid =>
    if pathBit hIndex lvl then middleKey (s.getD HashZero) (rootFrom hIndex (lvl + 1) rest mid)
    else middleKey (rootFrom hIndex (lvl + 1) rest mid) (s.getD HashZero)

/-- Modelled from the spec: the library is not under src/; the root that an
inclusion path gives to a leaf. -/
def rootFromProof (proof : SmtProof) (hIndex hValue : Hash) : Hash :=
  let mid :=
    if proof.Existence then leafKey hIndex hValue
    else
      match proof.nodeAux with
      | none => HashZero
      | some (hi, hv) => leafKey hi hv
  rootFrom hIndex 0 proof.siblings mid

/-- Modelled from the spec: the library is not under src/; the bytes of one
level of a path. -/
def levelBytes : Option Hash → List Byte
  | none => [0]
  | some h => [1] ++ h.val

/-- Modelled from the spec: the library is not under src/; the encoding of an
inclusion path: the existence mark, the number of levels, the levels, the other
leaf. -/
def smtProofBytes (proof : SmtProof) : List Byte :=
  [if proof.Existence then 1 else 0, Fin.ofNat proof.siblings.length]
    ++ (proof.siblings.map levelBytes).flatten
    ++ (match proof.nodeAux with
        | none => [0]
        | some (hi, hv) => [1] ++ hi.val ++ hv.val)

/-- Modelled from the spec: the library is not under src/; the first 32 bytes as
a hash, and the rest. -/
def takeHash (bs : List Byte) : Except String (Hash × List Byte) :=
  if h : (bs.take 32).length = 32 then Except.ok (⟨bs.take 32, h⟩, bs.drop 32)
  else Except.error "cannot unmarshal the proof: too short"

/-- Modelled from the spec: the library is not under src/; the decoding of `n`
levels of a path. -/
def parseLevels : Nat → List Byte → Except String (List (Option Hash) × List Byte)
  | 0, bs => Except.ok ([], bs)
  | n + 1, bs =>
    match bs with
    | [] => Except.error "cannot unmarshal the proof: too short"
    | tag :: rest =>
      if tag = 0 then
        match parseLevels n rest with
        | Except.error err => Except.error err
        | Except.ok (levels, rest2) => Except.ok (none :: levels, rest2)
      else
        match takeHash rest with
        | Except.error err => Except.error err
        | Except.ok (h, rest1) =>
          match parseLevels n rest1 with
          | Except.error err => Except.error err
          | Except.ok (levels, rest2) => Except.ok (some h :: levels, rest2)

/-- Modelled from the spec: the library is not under src/; the decoding of an
inclusion path. -/
def smtProofFromBytes (bs : List Byte) : Except String SmtProof :=
  match bs with
  | e :: n :: rest =>
    match parseLevels n.val rest with
    | Except.error err => Except.error err
    | Except.ok (levels, rest1) =>
      match rest1 with
      | [] => Except.error "cannot unmarshal the proof: too short"
      | tag :: rest2 =>
        if tag = 0 then
          Except.ok { Existence := decide (e ≠ 0), siblings := levels, nodeAux := none }
        else
          match takeHash rest2 with
          | Except.error err => Except.error err
          | Except.ok (hi, rest3) =>
            match takeHash rest3 with
            | Except.error err => Except.error err
            | Except.ok (hv, _) =>
              Except.ok { Existence := decide (e ≠ 0), siblings := levels,
                          nodeAux := some (hi, hv) }
  | _ => Except.error "cannot unmarshal the proof: too short"

/-- Modelled from the spec: the library is not under src/; the value of a
hexadecimal digit. -/
def unhexDigit (ch : Char) : Option Nat :=
  if 48 ≤ ch.toNat ∧ ch.toNat ≤ 57 then some (ch.toNat - 48)
  else if 97 ≤ ch.toNat ∧ ch.toNat ≤ 102 then some (ch.toNat - 87)
  else if 65 ≤ ch.toNat ∧ ch.toNat ≤ 70 then some (ch.toNat - 55)
  else none

/-- Modelled from the spec: the library is not under src/; `hex.DecodeString` on
the characters of a string. -/
def decodeHex : List Char → Except String (List Byte)
  | [] => Except.ok []
  | [_] => Except.error "encoding/hex: odd length hex string"
  | a :: b :: rest =>
    match unhexDigit a, unhexDigit b with
    | some x, some y =>
      match decodeHex rest with
      | Except.error err => Except.error err
      | Except.ok bs => Except.ok (Fin.ofNat (16 * x + y) :: bs)
    | _, _ => Except.error "encoding/hex: invalid byte"

/-- Modelled from the spec: the library is not under src/; the libraries behind
`tree.go`, on the tree above; bytes are written in hex after `0x`, which is
optional on reading. -/
def smtLib : MerkleTreeLib Node SmtProof where
  hIndex := fun c => Except.ok (hIndexOf c)
  hValue := fun c => Except.ok (hValueOf c)
  addEntry := fun t c =>
    match addLeaf c t 0 with
    | Except.error err => (some err, t)
    | Except.ok t1 => (none, t1)
  generateProof := fun t hIndex => genProofFrom hIndex t []
  existence := fun mp => mp.Existence
  proofBytes := smtProofBytes
  newProofFromBytes := smtProofFromBytes
  verifyProof := fun root mp hIndex hValue => decide (rootFromProof mp hIndex hValue = root)
  rootKeyBytes := fun t => t.key.val
  hexEncode := fun bs => "0x" ++ hexString bs
  hexDecode := fun s =>
    match s.data with
    | '0' :: 'x' :: rest => decodeHex rest
    | cs => decodeHex cs

/-! ## api/censusdb/censusdb.go : the registry of census trees

The packages `censustree`, `db`, `compressor` and `encoding/json` are not
under src/; what `censusdb.go` calls of them is the parameter `CensusEnv`.
The trees live in a state `σ` owned by `censustree` and are designated by
handles `η` (a `*censustree.Tree`). The key-value database is a list of
bindings, and the environment says which of its operations return an error;
a write transaction applies what it staged when its commit returns no error
and nothing otherwise (`defer wtx.Discard()`). A record written with `gob` is
the record of the exported fields of a `CensusRef`. The `sync.Map` is a list
of bindings too. A goroutine started by `Del` and not yet run is an entry of
`pending`. -/

/-- A `uuid.UUID`, a `[16]byte`. -/
abbrev UUID := List Byte

/-- The bindings of a map, the newest first; a key is bound at most once. -/
abbrev Bindings (β : Type) := List (List Byte × β)

/-- Look a key up (`sync.Map.Load`, `ReadTx().Get`). -/
def kvGet {β : Type} (m : Bindings β) (k : List Byte) : Option β :=
  (m.find? (fun e => e.1 == k)).map (fun e => e.2)

/-- Remove the binding of a key (`sync.Map.Delete`, `wtx.Delete`). -/
def kvDel {β : Type} (m : Bindings β) (k : List Byte) : Bindings β :=
  m.filter (fun e => e.1 != k)

/-- Bind a key, replacing its binding (`sync.Map.Store`, `wtx.Set`). -/
def kvSet {β : Type} (m : Bindings β) (k : List Byte) (v : β) : Bindings β :=
  (k, v) :: kvDel m k

/-- The constant `censusDBprefix = "cs_"`. -/
def censusDBprefix : String := "cs_"

/-- The constant `censusDBreferencePrefix = "cr_"`, as `[]byte`. -/
def censusDBreferencePrefix : List Byte := [99, 114, 95]

/-- The function `censusName`: `fmt.Sprintf("%s%x", censusDBprefix, censusID)`. -/
def censusName (censusID : List Byte) : String :=
  censusDBprefix ++ hexString censusID

/-- The struct `CensusRef`; `tree` is `none` for a nil pointer. -/
structure CensusRef (η : Type) where
  tree : Option η
  AuthToken : Option UUID
  CensusType : Int
  Indexed : Bool
  IsPublic : Bool
deriving DecidableEq, Repr

/-- What `gob` writes of a `CensusRef`: its exported fields. -/
structure CensusRefRecord where
  AuthToken : Option UUID
  CensusType : Int
  Indexed : Bool
  IsPublic : Bool
deriving DecidableEq, Repr

/-- The struct `CensusDump` (`Type_` is its field `Type`); a nil slice is `none`. -/
structure CensusDump where
  Type_ : Int
  RootHash : Option (List Byte)
  Data : Option (List Byte)
  Indexed : Bool
deriving DecidableEq, Repr

/-- The struct `censustree.Options`, without `ParentDB` (always `c.db`). -/
structure Options where
  Name : String
  MaxLevels : Nat
  CensusType : Int
  IndexAsKeysCensus : Bool
deriving DecidableEq, Repr

/-- The calls of `censusdb.go` into the packages that are not under src/. A call
that returns an `error` returns it next to the state it leaves. -/
structure CensusEnv (σ η : Type) where
  /-- `censustree.New(opts)`. -/
  treeNew : Options → σ → Except String η × σ
  /-- `tree.Publish()`. -/
  publish : η → σ → σ
  /-- `tree.ImportDump(dump)`. -/
  importDump : η → List Byte → σ → Option String × σ
  /-- `tree.Root()`. -/
  root : η → σ → Except String (List Byte)
  /-- `censustree.DeleteCensusTreeFromDatabase(c.db, name)`, its error. -/
  deleteCensusTreeFromDatabase : String → σ → Option String × σ
  /-- `compressor.NewCompressor().DecompressBytes(data)`. -/
  decompressBytes : List Byte → List Byte
  /-- `json.Unmarshal(data, &cdata)` on a zero `CensusDump`. -/
  jsonUnmarshal : List Byte → Except String CensusDump
  /-- The error of `wtx.Set(key, value)` in `addCensusRefToDB`, by key. -/
  dbSet : List Byte → Option String
  /-- The error of `wtx.Commit()` in `addCensusRefToDB`, by key. -/
  dbSetCommit : List Byte → Option String
  /-- The error of `wtx.Delete(key)` in `Del`, by key. -/
  dbDelete : List Byte → Option String
  /-- The error of `wtx.Commit()` in `Del`, by key. -/
  dbDeleteCommit : List Byte → Option String
  /-- An error of `ReadTx().Get(key)` that is not `db.ErrKeyNotFound`, by key. -/
  dbGet : List Byte → Option String

/-- The struct `CensusDB` with what it reaches: `db` holds the reference
records of the database, `world` the census trees, `censusMap` the
references in memory, `pending` the census ids of the goroutines that `Del`
started and that have not run yet. -/
structure CensusDB (σ η : Type) where
  db : Bindings CensusRefRecord
  world : σ
  censusMap : Bindings (CensusRef η)
  pending : List (List Byte)
deriving DecidableEq

/-- The function `NewCensusDB`: nothing in memory, no goroutine. -/
def NewCensusDB {σ η : Type} (db : Bindings CensusRefRecord) (world : σ) : CensusDB σ η :=
  { db := db, world := world, censusMap := [], pending := [] }

/-- The method `CensusDB.Exists`: a lookup in `censusMap` only. -/
def CensusDB.Exists {σ η : Type} (c : CensusDB σ η) (censusID : List Byte) : Bool :=
  (kvGet c.censusMap censusID).isSome

/-- The method `addCensusRefToDB`: the reference is encoded and set under
`"cr_" + censusID` in a write transaction, which is committed. -/
def CensusDB.addCensusRefToDB {σ η : Type} (env : CensusEnv σ η) (c : CensusDB σ η)
    (censusID : List Byte) (authToken : Option UUID) (t : Int) (indexed public_ : Bool) :
    Except String (CensusRef η) × CensusDB σ η :=
  let ref : CensusRef η :=
    { tree := none, AuthToken := authToken, CensusType := t, Indexed := indexed,
      IsPublic := public_ }
  let refData : CensusRefRecord :=
    { AuthToken := ref.AuthToken, CensusType := ref.CensusType, Indexed := ref.Indexed,
      IsPublic := ref.IsPublic }
  match env.dbSet (censusDBreferencePrefix ++ censusID) with
  | some err => (Except.error err, c)
  | none =>
    match env.dbSetCommit (censusDBreferencePrefix ++ censusID) with
    | some err => (Except.error err, c)
    | none =>
      (Except.ok ref, { c with db := kvSet c.db (censusDBreferencePrefix ++ censusID) refData })

/-- The method `getCensusRefFromDB`: the record under `"cr_" + censusID`,
decoded into a fresh `CensusRef`. -/
def CensusDB.getCensusRefFromDB {σ η : Type} (env : CensusEnv σ η) (c : CensusDB σ η)
    (censusID : List Byte) : Except String (CensusRef η) :=
  match env.dbGet (censusDBreferencePrefix ++ censusID) with
  | some err => Except.error err
  | none =>
    match kvGet c.db (censusDBreferencePrefix ++ censusID) with
    | none => Except.error "census id not found in local storage"
    | some b =>
      Except.ok { tree := none, AuthToken := b.AuthToken, CensusType := b.CensusType,
                  Indexed := b.Indexed, IsPublic := b.IsPublic }

/-- The options `New` gives to `censustree.New`. -/
def newOptions (censusID : List Byte) (censusType : Int) (indexed : Bool) : Options :=
  { Name := censusName censusID, MaxLevels := 256, CensusType := censusType,
    IndexAsKeysCensus := indexed }

/-- The options `Load` gives to `censustree.New`: `IndexAsKeysCensus` is not
set there and has Go's zero value. -/
def loadOptions {η : Type} (censusID : List Byte) (ref : CensusRef η) : Options :=
  { Name := censusName censusID, MaxLevels := 256, CensusType := ref.CensusType,
    IndexAsKeysCensus := false }

/-- The method `CensusDB.New`. -/
def CensusDB.New {σ η : Type} (env : CensusEnv σ η) (c : CensusDB σ η) (censusID : List Byte)
    (censusType : Int) (indexed public_ : Bool) (authToken : Option UUID) :
    Except String (CensusRef η) × CensusDB σ η :=
  if c.Exists censusID then
    (Except.error ("census " ++ hexString censusID ++ " already exists"), c)
  else
    match env.treeNew (newOptions censusID censusType indexed) c.world with
    | (Except.error err, w) => (Except.error err, { c with world := w })
    | (Except.ok tree, w) =>
      match CensusDB.addCensusRefToDB env { c with world := w } censusID authToken censusType
          indexed public_ with
      | (Except.error err, c1) => (Except.error err, c1)
      | (Except.ok ref, c1) =>
        let ref := { ref with tree := some tree }
        let c2 := if public_ then { c1 with world := env.publish tree c1.world } else c1
        (Except.ok ref, { c2 with censusMap := kvSet c2.censusMap censusID ref })

/-- The authentication test of `Load`, written out twice there: with a token
given, a reference without token is locked and another token is wrong. -/
def checkAuth {η : Type} (authToken : Option UUID) (ref : CensusRef η) : Option String :=
  match authToken with
  | none => none
  | some token =>
    match ref.AuthToken with
    | none => some "census is locked"
    | some stored => if token ≠ stored then some "wrong authentication token" else none

/-- The method `CensusDB.Load`: from memory if the census is there, from the
database otherwise. -/
def CensusDB.Load {σ η : Type} (env : CensusEnv σ η) (c : CensusDB σ η) (censusID : List Byte)
    (authToken : Option UUID) : Except String (CensusRef η) × CensusDB σ η :=
  match kvGet c.censusMap censusID with
  | some ref =>
    match checkAuth authToken ref with
    | some err => (Except.error err, c)
    | none => (Except.ok ref, c)
  | none =>
    match c.getCensusRefFromDB env censusID with
    | Except.error err => (Except.error err, c)
    | Except.ok ref =>
      match checkAuth authToken ref with
      | some err => (Except.error err, c)
      | none =>
        match env.treeNew (loadOptions censusID ref) c.world with
        | (Except.error err, w) => (Except.error err, { c with world := w })
        | (Except.ok tree, w) =>
          let ref := { ref with tree := some tree }
          let w := if ref.IsPublic then env.publish tree w else w
          (Except.ok ref, { c with world := w, censusMap := kvSet c.censusMap censusID ref })

/-- The method `CensusDB.Del` up to its return: the deletion of the reference
record is staged, a goroutine is started, and the transaction is committed;
the removal from `censusMap` is in the body of that goroutine. -/
def CensusDB.Del {σ η : Type} (env : CensusEnv σ η) (c : CensusDB σ η) (censusID : List Byte) :
    Option String × CensusDB σ η :=
  match env.dbDelete (censusDBreferencePrefix ++ censusID) with
  | some err => (some err, c)
  | none =>
    match env.dbDeleteCommit (censusDBreferencePrefix ++ censusID) with
    | some err => (some err, { c with pending := c.pending ++ [censusID] })
    | none =>
      (none, { c with db := kvDel c.db (censusDBreferencePrefix ++ censusID),
                      pending := c.pending ++ [censusID] })

/-- The body of the goroutine of `Del` for `censusID`: `censusMap.Delete`, then
`DeleteCensusTreeFromDatabase`, whose error is only logged. -/
def CensusDB.delTask {σ η : Type} (env : CensusEnv σ η) (c : CensusDB σ η)
    (censusID : List Byte) : CensusDB σ η :=
  let m := kvDel c.censusMap censusID
  { c with censusMap := m,
           world := (env.deleteCensusTreeFromDatabase (censusName censusID) c.world).2 }

/-- All the goroutines started by `Del` run, in the order they were started. -/
def CensusDB.runPending {σ η : Type} (env : CensusEnv σ η) (c : CensusDB σ η) : CensusDB σ η :=
  c.pending.foldl (fun c censusID => c.delTask env censusID) { c with pending := [] }

/-- The method `CensusDB.ImportAsPublic`. -/
def CensusDB.ImportAsPublic {σ η : Type} (env : CensusEnv σ η) (c : CensusDB σ η)
    (data : List Byte) : Option String × CensusDB σ η :=
  match env.jsonUnmarshal data with
  | Except.error err => (some err, c)
  | Except.ok cdata =>
    match cdata.Data, cdata.RootHash with
    | some dump, some rootHash =>
      if c.Exists rootHash then
        (some ("could not import census " ++ hexString rootHash ++ ", already exists"), c)
      else
        match c.New env rootHash cdata.Type_ cdata.Indexed true none with
        | (Except.error err, c1) => (some err, c1)
        | (Except.ok ref, c1) =>
          match ref.tree with
          | none => (some "nil pointer dereference", c1)
          | some tree =>
            match env.importDump tree (env.decompressBytes dump) c1.world with
            | (some err, w) => (some err, { c1 with world := w })
            | (none, w) =>
              let c2 := { c1 with world := w }
              match env.root tree c2.world with
              | Except.error err => (some err, c2)
              | Except.ok root =>
                if root ≠ rootHash then
                  ((some "root hash does not match after importing dump"),
                    (c2.Del env rootHash).2)
                else (none, c2)
    | _, _ => (some "missing dump or root parameters", c)

/-- Modelled from the spec: the package `censustree` is not under src/. One
census tree as the registry sees it: a name, the published mark, and the
claims imported so far. -/
structure SimpleTree where
  name : String
  published : Bool
  claims : List Byte
deriving DecidableEq, Repr

/-- Modelled from the spec: a plain stand-in for the packages that are not under
src/, to run the registry on. A tree is opened by name and created when
absent; its root is the list of its claims; a dump is its claims; JSON is
replaced by the layout `[n] ++ rootHash (n bytes) ++ data`, an empty input
being undecodable; the database returns no error. -/
def simpleEnv : CensusEnv (List SimpleTree) String where
  treeNew := fun opts w =>
    if w.any (fun t => t.name == opts.Name) then (Except.ok opts.Name, w)
    else (Except.ok opts.Name, w ++ [{ name := opts.Name, published := false, claims := [] }])
  publish := fun h w => w.map (fun t => if t.name == h then { t with published := true } else t)
  importDump := fun h dump w =>
    (none, w.map (fun t => if t.name == h then { t with claims := t.claims ++ dump } else t))
  root := fun h w =>
    match w.find? (fun t => t.name == h) with
    | some t => Except.ok t.claims
    | none => Except.error "tree not found"
  deleteCensusTreeFromDatabase := fun name w => (none, w.filter (fun t => t.name != name))
  decompressBytes := fun data => data
  jsonUnmarshal := fun data =>
    match data with
    | [] => Except.error "unexpected end of JSON input"
    | n :: rest =>
      Except.ok { Type_ := 0, RootHash := some (rest.take n.val), Data := some (rest.drop n.val),
                  Indexed := false }
  dbSet := fun _ => none
  dbSetCommit := fun _ => none
  dbDelete := fun _ => none
  dbDeleteCommit := fun _ => none
  dbGet := fun _ => none

/-- A token, for the examples. -/
def tokenA : UUID := List.replicate 16 7

/-- Another token, for the examples. -/
def tokenB : UUID := List.replicate 16 8

/-- A registry on `simpleEnv` in which the census `[1]` was created with the
token `tokenA`, for the examples. -/
def registryA : CensusDB (List SimpleTree) String :=
  (CensusDB.New simpleEnv (NewCensusDB [] []) [1] 0 false false (some tokenA)).2

/-- A dump for `ImportAsPublic` on `simpleEnv`: root hash `[9]`, claims `[5, 5]`;
the root of the imported tree is `[5, 5]`, not `[9]`. -/
def badDump : List Byte := [1, 9, 5, 5]

/-! ## vochain/scrutinizer : the tally of the votes and the index of transactions

The storage of the scrutinizer is a list of bindings from process ids to
tallies: a record written with the codec is kept as the matrix it encodes.
The storage library is not under src/: `Get` returns the record and no error,
or no bytes and an error, when the key is absent or when the read fails; a
`Put` that returns an error writes nothing. A `uint32` counter is a natural number, incremented modulo `2 ^ 32`;
an index out of range is a panic, `none`. The decoding of a vote package
(`encoding/base64`, `encoding/json`) and the errors of the storage and of the
codec are the parameter `VoteEnv`. -/

/-- The constant `MaxQuestions = 64`. -/
def MaxQuestions : Nat := 64

/-- The constant `MaxOptions = 64`. -/
def MaxOptions : Nat := 64

/-- The type `ProcessVotes`, a `[][]uint32`. -/
abbrev ProcessVotes := List (List Nat)

/-- What `addVote` reads of a `types.Vote`. -/
structure Vote where
  ProcessID : List Byte
  VotePackage : String
deriving DecidableEq, Repr

/-- What `addVote` reads of a `types.VotePackage`: the option chosen for each
question, a `[]int`. -/
structure VotePackage where
  Votes : List Int
deriving DecidableEq, Repr

/-- The decoding calls of `addVote`, and the errors that the storage and the
codec return to `addProcess` and `addVote`. -/
structure VoteEnv where
  /-- `base64.StdEncoding.DecodeString(envelope.VotePackage)`. -/
  base64Decode : String → Except String (List Byte)
  /-- `json.Unmarshal(rawVote, &vote)` on a zero `VotePackage`. -/
  jsonUnmarshal : List Byte → Except String VotePackage
  /-- An error of `s.Storage.Get(key)` that is not the absence of the key, by key. -/
  storageGetErr : List Byte → Option String
  /-- The error of `s.Storage.Put(key, process)`, by key. -/
  storagePutErr : List Byte → Option String
  /-- The error of `s.Codec.MarshalBinaryBare(pv)`, by the tally. -/
  marshalErr : ProcessVotes → Option String
  /-- The error of `s.Codec.UnmarshalBinaryBare(process, &pv)`, by the tally that
  the record `process` encodes. -/
  unmarshalErr : ProcessVotes → Option String

/-- One reference of `indexertypes.TxReference`: `Index` is a `uint64`,
`BlockHeight` a `uint32`, `TxBlockIndex` an `int32`. -/
structure TxReference where
  Index : Nat
  BlockHeight : Nat
  TxBlockIndex : Int
deriving DecidableEq, Repr

/-- The struct `Scrutinizer`: the storage of the tallies, the counter of
transactions (a `uint64`) and the pool of references not yet written. -/
structure Scrutinizer where
  Storage : Bindings ProcessVotes
  countTotalTransactions : Nat
  newTxPool : List TxReference
deriving DecidableEq, Repr

/-- A scrutinizer that has indexed nothing. -/
def freshScrutinizer : Scrutinizer :=
  { Storage := [], countTotalTransactions := 0, newTxPool := [] }

/-- Modelled from the spec: `LevelDbStorage.Get` is not under src/. The call
`s.Storage.Get(key)` returns the record and no error, or an error, the bytes
returned being empty: the error of the read when it fails, "not found" when
the key is absent. -/
def Scrutinizer.Get (env : VoteEnv) (s : Scrutinizer) (key : List Byte) :
    Except String ProcessVotes :=
  match env.storageGetErr key with
  | some err => Except.error err
  | none =>
    match kvGet s.Storage key with
    | some pv => Except.ok pv
    | none => Except.error "leveldb: not found"

/-- The method `addProcess`. With no error from `Get` the process exists and
the method returns (`err == nil`); with an error `process` is empty, so
`len(process) > 0` is false whatever the error, and a tally of `MaxQuestions`
rows of `MaxOptions` zeros is encoded and put under the id. An error of the
codec or of `Put` is logged only. -/
def addProcess (env : VoteEnv) (s : Scrutinizer) (pid : List Byte) : Scrutinizer :=
  match s.Get env pid with
  | Except.ok _ => s
  | Except.error _ =>
    let pv : ProcessVotes := List.replicate MaxQuestions (List.replicate MaxOptions 0)
    match env.marshalErr pv with
    | some _ => s
    | none =>
      match env.storagePutErr pid with
      | some _ => s
      | none => { s with Storage := kvSet s.Storage pid pv }

/-- The statement `pv[question][opt]++`, `none` when an index is out of range. -/
def incrCounter (pv : ProcessVotes) (question : Nat) (opt : Int) : Option ProcessVotes :=
  if opt < 0 then none
  else
    match pv[question]? with
    | none => none
    | some row =>
      match row[opt.toNat]? with
      | none => none
      | some v => some (pv.set question (row.set opt.toNat ((v + 1) % 2 ^ 32)))

/-- The loop `for question, opt := range vote.Votes` of `addVote`, from the
index `question` on: an option above `MaxOptions` is skipped, another one is
counted. -/
def countVotes : ProcessVotes → Nat → List Int → Option ProcessVotes
  | pv, _, [] => some pv
  | pv, question, opt :: rest =>
    if opt > MaxOptions then countVotes pv (question + 1) rest
    else
      match incrCounter pv question opt with
      | none => none
      | some pv1 => countVotes pv1 (question + 1) rest

/-- The method `addVote`: the scrutinizer it leaves, `none` when it panics. Every
error (of the decoders, of `Get`, of the codec, of `Put`) is logged and the
method returns, the storage being as it was. -/
def addVote (env : VoteEnv) (s : Scrutinizer) (envelope : Vote) : Option Scrutinizer :=
  match env.base64Decode envelope.VotePackage with
  | Except.error _ => some s
  | Except.ok rawVote =>
    match env.jsonUnmarshal rawVote with
    | Except.error _ => some s
    | Except.ok vote =>
      if vote.Votes.length > MaxQuestions then some s
      else
        match s.Get env envelope.ProcessID with
        | Except.error _ => some s
        | Except.ok pv =>
          match env.unmarshalErr pv with
          | some _ => some s
          | none =>
            match countVotes pv 0 vote.Votes with
            | none => none
            | some pv1 =>
              match env.marshalErr pv1 with
              | some _ => some s
              | none =>
                match env.storagePutErr envelope.ProcessID with
                | some _ => some s
                | none => some { s with Storage := kvSet s.Storage envelope.ProcessID pv1 }

/-- The counter `pv[i][j]` where both indices are in range, zero elsewhere. -/
def at2 (pv : ProcessVotes) (i j : Nat) : Nat :=
  (pv.getD i []).getD j 0

/-- A tally of `MaxQuestions` rows of `MaxOptions` counters. -/
def Is64x64 (pv : ProcessVotes) : Prop :=
  pv.length = MaxQuestions ∧ ∀ row ∈ pv, row.length = MaxOptions

/-- The inner loop of the first loop of `pruneVoteResult`,
`for ; j < MaxOptions; j++ { if pv[min][j] != 0 { break } }`: the value of `j`
after it, from `j` with `fuel` rounds. -/
def scanRow (pv : ProcessVotes) (min : Nat) : Nat → Nat → Nat
  | 0, j => j
  | fuel + 1, j =>
    if j < MaxOptions then
      if at2 pv min j ≠ 0 then j else scanRow pv min fuel (j + 1)
    else j

/-- The first loop of `pruneVoteResult`, `for ; min >= 0; min--`, by `min + 1`:
the value of `min` after it, `-1` when no question has an answer. -/
def findMin (pv : ProcessVotes) : Nat → Int
  | 0 => -1
  | n + 1 => if scanRow pv n MaxOptions 0 < MaxOptions then (n : Int) else findMin pv n

/-- The loop `for ; j2 >= 0; j2-- { if pv[i2][j2] != 0 { break } }`, by `j2 + 1`:
the value of `j2` after it. -/
def lastNonZero (pv : ProcessVotes) (i2 : Nat) : Nat → Int
  | 0 => -1
  | n + 1 => if at2 pv i2 n ≠ 0 then (n : Int) else lastNonZero pv i2 n

/-- Go's builtin `copy(dst, src)` on `[]uint32`. -/
def copyRow (dst src : List Nat) : List Nat :=
  src.take dst.length ++ dst.drop src.length

/-- The body of the second loop of `pruneVoteResult` for one `i`: a fresh `pvc`
of `i + 1` rows, row `i2` being a copy of `pv[i2]` into `j2 + 1` counters. -/
def pruneRows (pv : ProcessVotes) (i : Nat) : ProcessVotes :=
  (List.range (i + 1)).map (fun i2 =>
    copyRow (List.replicate (lastNonZero pv i2 MaxOptions + 1).toNat 0) (pv.getD i2 []))

/-- The function `pruneVoteResult`: every round of `for i := 0; i <= min; i++`
replaces `pvc`. -/
def pruneVoteResult (pv : ProcessVotes) : ProcessVotes :=
  (List.range (findMin pv MaxQuestions + 1).toNat).foldl (fun _ i => pruneRows pv i) []

/-- What the specification calls trimming a row on its own trailing zeros. -/
def trimRow (row : List Nat) : List Nat :=
  row.rdropWhile (fun v => v == 0)

/-- The method `OnNewTx`: the counter is incremented (`atomic.AddUint64`) and a
reference with the new count is appended to the pool. -/
def OnNewTx (s : Scrutinizer) (blockHeight : Nat) (txIndex : Int) : Scrutinizer :=
  let txCount := (s.countTotalTransactions + 1) % 2 ^ 64
  let txReference : TxReference :=
    { Index := txCount, BlockHeight := blockHeight, TxBlockIndex := txIndex }
  { s with countTotalTransactions := txCount, newTxPool := s.newTxPool ++ [txReference] }

/-- The method `TransactionCount`. -/
def TransactionCount (s : Scrutinizer) : Nat :=
  s.countTotalTransactions

/-- A sequence of `OnNewTx(blockHeight, txIndex)` calls. -/
def onNewTxs (s : Scrutinizer) (txs : List (Nat × Int)) : Scrutinizer :=
  txs.foldl (fun s tx => OnNewTx s tx.1 tx.2) s

/-- A stand-in for the decoders of `addVote`: every vote package decodes to the
options `votes`; the storage and the codec return no error. -/
def decodesTo (votes : List Int) : VoteEnv where
  base64Decode := fun _ => Except.ok []
  jsonUnmarshal := fun _ => Except.ok { Votes := votes }
  storageGetErr := fun _ => none
  storagePutErr := fun _ => none
  marshalErr := fun _ => none
  unmarshalErr := fun _ => none

/-- A stand-in like `decodesTo` on a storage whose reads fail. -/
def readFails (votes : List Int) : VoteEnv :=
  { decodesTo votes with storageGetErr := fun _ => some "leveldb: closed" }

/-- A stand-in like `decodesTo` on a storage whose writes fail. -/
def writeFails (votes : List Int) : VoteEnv :=
  { decodesTo votes with storagePutErr := fun _ => some "leveldb: closed" }

/-- The tally that `addProcess` writes: `MaxQuestions` rows of `MaxOptions` zeros. -/
def zeroTally : ProcessVotes :=
  List.replicate MaxQuestions (List.replicate MaxOptions 0)

/-- A tally with one vote for the option 3 of the question 0 and one for the
option 5 of the question 2, for the examples. -/
def tallyQ0Q2 : ProcessVotes :=
  (countVotes zeroTally 0 [3, 65, 5]).getD []

/-- A tally whose counter `[0][0]` holds the highest `uint32`, for the examples. -/
def maxedTally : ProcessVotes :=
  zeroTally.set 0 ((List.replicate MaxOptions 0).set 0 4294967295)

/-- The order of the keys in the storage, `bytes.Compare(a, b) < 0`. -/
def bytesLt : List Byte → List Byte → Bool
  | [], [] => false
  | [], _ :: _ => true
  | _ :: _, [] => false
  | a :: as, b :: bs => if a < b then true else if b < a then false else bytesLt as bs

/-- A key is put at its place among keys in ascending order. -/
def insertKey (k : List Byte) : List (List Byte) → List (List Byte)
  | [] => [k]
  | x :: xs => if bytesLt k x then k :: x :: xs else x :: insertKey k xs

/-- The keys of the storage in ascending order, as an iterator goes through them. -/
def iterKeys {β : Type} (m : Bindings β) : List (List Byte) :=
  m.foldr (fun e acc => insertKey e.1 acc) []

/-- Modelled from the spec: the iterator of the storage library is not under
src/. It stands on one of the keys, before the first one (`pos = 0`) or after
the last one; `pos` counts the keys up to the one it stands on. -/
structure Iterator where
  keys : List (List Byte)
  pos : Nat
deriving DecidableEq, Repr

/-- Modelled from the spec: the iterator of the storage library is not under
src/. `NewIterator(nil, nil)` stands before the first key. -/
def NewIterator {β : Type} (m : Bindings β) : Iterator :=
  { keys := iterKeys m, pos := 0 }

/-- Modelled from the spec: the iterator of the storage library is not under
src/. `Seek(key)` moves to the first key greater than or equal to `key`, after
the last one when there is none. -/
def Iterator.Seek (it : Iterator) (key : List Byte) : Iterator :=
  { it with pos := (it.keys.takeWhile (fun k => bytesLt k key)).length + 1 }

/-- Modelled from the spec: the iterator of the storage library is not under
src/. `Next()` moves to the next key and tells whether there is one. -/
def Iterator.Next (it : Iterator) : Bool × Iterator :=
  if it.pos < it.keys.length then (true, { it with pos := it.pos + 1 }) else (false, it)

/-- Modelled from the spec: the iterator of the storage library is not under
src/. `Key()` is the key the iterator stands on. -/
def Iterator.Key (it : Iterator) : List Byte :=
  it.keys.getD (it.pos - 1) []

/-- The loop `for iter.Next() { if max < 1 { break }; procList = append(procList,
string(iter.Key())); max-- }` of `ProcessList`, with `fuel` rounds. -/
def processListLoop : Nat → Iterator → Int → List (List Byte) → List (List Byte)
  | 0, _, _, procList => procList
  | fuel + 1, iter, max, procList =>
    match iter.Next with
    | (false, _) => procList
    | (true, iter1) =>
      if max < 1 then procList
      else processListLoop fuel iter1 (max - 1) (procList ++ [iter1.Key])

/-- The method `ProcessList`: the loop has a round at most for each key and one
more. -/
def ProcessList (s : Scrutinizer) (max : Int) (from_ : List Byte) : List (List Byte) :=
  let iter := NewIterator s.Storage
  let iter := if from_.length > 0 then iter.Seek from_ else iter
  processListLoop (iter.keys.length + 1) iter max []

/-- A scrutinizer with the processes `a` and `c`, for the examples. -/
def scrutinizerAC : Scrutinizer :=
  addProcess (decodesTo []) (addProcess (decodesTo []) freshScrutinizer [99]) [97]

/-! ## tree/tree.go : dumps, sizes and node lookups

More calls of `tree.go` into the tree library, the parameter
`MerkleTreeReadLib`. A root key handed to the library is an `Option Hash`,
`none` being a nil pointer. -/

/-- What `tree.go` reads of a `*merkletree.Node`. -/
structure TreeNode where
  /-- `n.Type == merkletree.NodeTypeLeaf`. -/
  isLeaf : Bool
  /-- `n.Entry.Value()`. -/
  value : List (List Byte)
deriving DecidableEq, Repr

/-- The reading calls of `tree.go` into the libraries. -/
structure MerkleTreeReadLib (τ : Type) where
  /-- `t.Tree.DumpClaims(rootKey)`: the claims and the error. -/
  dumpClaims : τ → Option Hash → List String × Option String
  /-- `t.Tree.Walk(rootKey, f)`: the nodes handed to `f`, in order, and the error. -/
  walk : τ → Option Hash → List TreeNode × Option String
  /-- `t.Tree.GetNode(&h)`: the node (`none` is nil) or the error. -/
  getNode : τ → Hash → Except String (Option TreeNode)
  /-- `base64.StdEncoding.EncodeToString`. -/
  base64Encode : List Byte → String
  /-- `string(norm.NFC.Bytes(dataClean))`. -/
  nfcString : List Byte → String

/-- The method `Tree.Dump`: `rootHash` is the zero hash unless `root` is given,
and `&rootHash` is what `DumpClaims` gets. -/
def Dump {τ π : Type} (lib : MerkleTreeLib τ π) (rd : MerkleTreeReadLib τ) (t : τ)
    (root : String) : List String × Option String :=
  if root.length > 0 then
    match stringToHash lib root with
    | Except.error err => ([], some err)
    | Except.ok rootHash => rd.dumpClaims t (some rootHash)
  else rd.dumpClaims t (some HashZero)

/-- The method `Tree.Size`: the number of leaves handed to the visitor. -/
def Size {τ π : Type} (lib : MerkleTreeLib τ π) (rd : MerkleTreeReadLib τ) (t : τ)
    (root : String) : Nat × Option String :=
  if root.length > 0 then
    match stringToHash lib root with
    | Except.error err => (0, some err)
    | Except.ok rootHash =>
      (((rd.walk t (some rootHash)).1.filter (fun n => n.isLeaf)).length,
        (rd.walk t (some rootHash)).2)
  else
    (((rd.walk t (some HashZero)).1.filter (fun n => n.isLeaf)).length,
      (rd.walk t (some HashZero)).2)

/-- The visitor of `DumpPlain` on the nodes of a walk: a leaf is decoded and
appended to the response; `none` when a decoding panics. -/
def dumpPlainVisit {τ : Type} (rd : MerkleTreeReadLib τ) (responseBase64 : Bool) :
    List TreeNode → List String → Option (List String)
  | [], response => some response
  | n :: ns, response =>
    if n.isLeaf then
      match decodeLeaf n.value with
      | none => none
      | some dataClean =>
        if responseBase64 then
          dumpPlainVisit rd responseBase64 ns (response ++ [rd.base64Encode dataClean])
        else dumpPlainVisit rd responseBase64 ns (response ++ [rd.nfcString dataClean])
    else dumpPlainVisit rd responseBase64 ns response

/-- The method `Tree.DumpPlain`, `none` when it panics. -/
def DumpPlain {τ π : Type} (lib : MerkleTreeLib τ π) (rd : MerkleTreeReadLib τ) (t : τ)
    (root : String) (responseBase64 : Bool) : Option (List String × Option String) :=
  if root.length > 0 then
    match stringToHash lib root with
    | Except.error err => some ([], some err)
    | Except.ok rootHash =>
      (dumpPlainVisit rd responseBase64 (rd.walk t (some rootHash)).1 []).map
        (fun response => (response, (rd.walk t (some rootHash)).2))
  else
    (dumpPlainVisit rd responseBase64 (rd.walk t (some HashZero)).1 []).map
      (fun response => (response, (rd.walk t (some HashZero)).2))

/-- The method `Tree.HashExist`: an error of `GetNode` and a nil node both give
`false, nil`. -/
def HashExist {τ π : Type} (lib : MerkleTreeLib τ π) (rd : MerkleTreeReadLib τ) (t : τ)
    (hash : String) : Except String Bool :=
  match stringToHash lib hash with
  | Except.error err => Except.error err
  | Except.ok h =>
    match rd.getNode t h with
    | Except.error _ => Except.ok false
    | Except.ok none => Except.ok false
    | Except.ok (some _) => Except.ok true

/-- Modelled from the spec: the library is not under src/; what `tree.go` reads
of a node of the tree `Node`. -/
def Node.toTreeNode : Node → TreeNode
  | Node.leaf c => { isLeaf := true, value := entryValue c }
  | _ => { isLeaf := false, value := [] }

/-- Modelled from the spec: the library is not under src/; the node of a given
key, the first one met from the root. -/
def Node.find (key : Hash) : Node → Option Node
  | Node.empty => if Node.empty.key = key then some Node.empty else none
  | Node.leaf c => if (Node.leaf c).key = key then some (Node.leaf c) else none
  | Node.middle l r =>
    if (Node.middle l r).key = key then some (Node.middle l r)
    else
      match Node.find key l with
      | some n => some n
      | none => Node.find key r

/-- Modelled from the spec: the library is not under src/; the nodes below a
node in the order of a walk, the node first. -/
def Node.preorder : Node → List Node
  | Node.empty => [Node.empty]
  | Node.leaf c => [Node.leaf c]
  | Node.middle l r => Node.middle l r :: (Node.preorder l ++ Node.preorder r)

/-- Modelled from the spec: the library is not under src/; the node of a key,
the empty node for the zero hash, an error for a key that is not in the tree. -/
def smtGetNode (t : Node) (key : Hash) : Except String Node :=
  if key = HashZero then Except.ok Node.empty
  else
    match Node.find key t with
    | some n => Except.ok n
    | none => Except.error "key not found"

/-- Modelled from the spec: the library is not under src/; a walk under a given
root key, under the current root when the pointer is nil. -/
def smtWalk (t : Node) (rootKey : Option Hash) : List Node × Option String :=
  match smtGetNode t (rootKey.getD t.key) with
  | Except.error err => ([], some err)
  | Except.ok n => (n.preorder, none)

/-- Modelled from the spec: `encoding/base64` is not under src/; one character
of the standard alphabet. -/
def base64Char (n : Nat) : Char :=
  if n < 26 then Char.ofNat (65 + n)
  else if n < 52 then Char.ofNat (71 + n)
  else if n < 62 then Char.ofNat (n - 4)
  else if n = 62 then '+' else '/'

/-- Modelled from the spec: `encoding/base64` is not under src/; the standard
encoding with padding. -/
def base64Chars : List Byte → List Char
  | [] => []
  | [a] => [base64Char (a.val / 4), base64Char (a.val % 4 * 16), '=', '=']
  | [a, b] =>
    [base64Char (a.val / 4), base64Char (a.val % 4 * 16 + b.val / 16),
      base64Char (b.val % 16 * 4), '=']
  | a :: b :: c :: rest =>
    [base64Char (a.val / 4), base64Char (a.val % 4 * 16 + b.val / 16),
      base64Char (b.val % 16 * 4 + c.val / 64), base64Char (c.val % 64)] ++ base64Chars rest

/-- Modelled from the spec: `norm.NFC` of `golang.org/x/text` is not under src/
and its normalisation is not modelled. One character is read per byte, which
is `string(norm.NFC.Bytes(b))` for ASCII bytes only: they are one character
each and in normal form. -/
def asciiString (bs : List Byte) : String :=
  String.mk (bs.map (fun b => Char.ofNat b.val))

/-- Modelled from the spec: the library is not under src/; the reading calls on
the tree `Node`: a dumped claim is the hex of the two slots of a leaf. A text
is read by `asciiString`, which stands for the normalisation on ASCII text
only; the dumps of the properties below are taken in base64. -/
def smtRead : MerkleTreeReadLib Node where
  dumpClaims := fun t rootKey =>
    (((smtWalk t rootKey).1.filterMap (fun n =>
        match n with
        | Node.leaf c => some (smtLib.hexEncode (c.indexSlot ++ c.dataSlot))
        | _ => none)),
      (smtWalk t rootKey).2)
  walk := fun t rootKey => ((smtWalk t rootKey).1.map Node.toTreeNode, (smtWalk t rootKey).2)
  getNode := fun t key =>
    match smtGetNode t key with
    | Except.error err => Except.error err
    | Except.ok n => Except.ok (some n.toTreeNode)
  base64Encode := fun bs => String.mk (base64Chars bs)
  nfcString := asciiString

/-- A storage that is closed: every node lookup returns an error that is not
"not found". -/
def closedRead : MerkleTreeReadLib Node :=
  { smtRead with getNode := fun _ _ => Except.error "leveldb: closed" }

/-- The tree of `smtLib` with the one claim `[1, 2, 3]`, for the examples. -/
def treeOneClaim : Node :=
  (addClaims smtLib Node.empty [[1, 2, 3]]).getD Node.empty

/-- A stand-in like `simpleEnv` in which a dump that holds the byte 255 cannot be
imported. -/
def strictEnv : CensusEnv (List SimpleTree) String :=
  { simpleEnv with
    importDump := fun h dump w =>
      if dump.any (fun b => b == 255) then (some "could not import dump", w)
      else simpleEnv.importDump h dump w }

/-- A dump for `ImportAsPublic` on `strictEnv`: root hash `[9]`, and claims that
cannot be imported. -/
def brokenDump : List Byte := [1, 9, 255]

/-- A call that the registry makes to package `censustree`: `censustree.New`
with its options, or `Publish` on the tree of a name. -/
inductive TreeCall where
  | opened (opts : Options)
  | published (name : String)
deriving DecidableEq, Repr

/-- Modelled from the spec: a stand-in for package `censustree`, which is not
under src/, that keeps in order the calls it receives and does nothing else. A
tree is its name, `censustree.New` and `Publish` return no error, and the
database returns no error. -/
def traceEnv : CensusEnv (List TreeCall) String where
  treeNew := fun opts w => (Except.ok opts.Name, w ++ [TreeCall.opened opts])
  publish := fun h w => w ++ [TreeCall.published h]
  importDump := fun _ _ w => (none, w)
  root := fun _ _ => Except.ok []
  deleteCensusTreeFromDatabase := fun _ w => (none, w)
  decompressBytes := fun data => data
  jsonUnmarshal := fun _ => Except.error "unexpected end of JSON input"
  dbSet := fun _ => none
  dbSetCommit := fun _ => none
  dbDelete := fun _ => none
  dbDeleteCommit := fun _ => none
  dbGet := fun _ => none

/-! # Properties -/

/-! ### Lemmas on padding and slots -/

theorem doPaddingLoop_eq (n : Nat) (data : List Byte) :
    doPaddingLoop n data = data ++ List.replicate n 0 := by
  induction n generalizing data with
  | zero => simp [doPaddingLoop]
  | succ n ih => simp [doPaddingLoop, ih, List.replicate_succ]

theorem doPadding_eq (data : List Byte) :
    doPadding data = data ++ List.replicate (MaxClaimSize - data.length) 0 :=
  doPaddingLoop_eq _ data

theorem doPadding_length (data : List Byte) (h : data.length ≤ MaxClaimSize) :
    (doPadding data).length = MaxClaimSize := by
  rw [doPadding_eq]; simp; omega

/-- On data of `MaxClaimSize` bytes at least, `getClaimFromData` does not panic
and fills the slots with the first 50 bytes, zero bytes, and the first
`MaxClaimSize` bytes. -/
theorem getClaimFromData_some (data : List Byte) (h : MaxClaimSize ≤ data.length) :
    getClaimFromData data = some (slotsOf data) := by
  have h120 : 120 ≤ data.length := h
  have h50 : 400 / 8 ≤ data.length := by omega
  have h1 : min 50 data.length = 50 := by omega
  have h2 : min 120 data.length = 120 := by omega
  unfold getClaimFromData sliceTo
  rw [if_pos h50, if_pos h]
  simp [slotsOf, goCopy, MaxClaimSize, h1, h2, List.take_take]

/-- On data shorter than `MaxClaimSize`, `getClaimFromData` panics. -/
theorem getClaimFromData_none (data : List Byte) (h : data.length < MaxClaimSize) :
    getClaimFromData data = none := by
  unfold getClaimFromData sliceTo
  split
  · rfl
  · rw [if_neg (by omega)]

theorem slotsOf_dataSlot (data : List Byte) (h : data.length = MaxClaimSize) :
    (slotsOf data).dataSlot = data := by
  simp [slotsOf, h, List.take_of_length_le]

theorem padded_length (p : List Byte) (hp : p.length ≤ MaxClaimSize) :
    (if p.length < MaxClaimSize then doPadding p else p).length = MaxClaimSize := by
  split
  · exact doPadding_length p hp
  · omega

theorem padded_ge (p : List Byte) :
    MaxClaimSize ≤ (if p.length < MaxClaimSize then doPadding p else p).length := by
  split
  · rw [doPadding_length p (by omega)]
  · omega

theorem padded_eq (p : List Byte) (hp : p.length ≤ MaxClaimSize) :
    (if p.length < MaxClaimSize then doPadding p else p) = doPadding p := by
  split
  · rfl
  · have h : p.length = MaxClaimSize := by omega
    rw [doPadding_eq, h]; simp

theorem Claim_ok (p : List Byte) (hp : p.length ≤ MaxClaimSize) :
    Claim p = some (Except.ok (slotsOf (doPadding p))) := by
  unfold Claim
  rw [if_neg (by omega)]
  simp only [padded_eq p hp, getClaimFromData_some _ (le_of_eq (doPadding_length p hp).symm)]

theorem fillLeafData_some (value : List (List Byte)) (i : Nat) (data : List Byte)
    (h : i + value.flatten.length ≤ data.length) :
    fillLeafData value i data =
      some (data.take i ++ value.flatten ++ data.drop (i + value.flatten.length)) := by
  induction value generalizing i data with
  | nil => simp [fillLeafData]
  | cons e es ih =>
    simp only [List.flatten_cons, List.length_append] at h
    have he : i + e.length ≤ data.length := by omega
    have hc : goCopy ((data.drop i).take e.length) e = e := by
      have : e.length ≤ data.length - i := by omega
      simp [goCopy, List.length_take, this]
    rw [fillLeafData, if_pos he, hc, ih]
    · have ht : (data.take i ++ e ++ data.drop (i + e.length)).take (i + e.length)
          = data.take i ++ e := by
        rw [List.take_append_eq_append_take]
        have : (data.take i ++ e).length = i + e.length := by
          simp [List.length_take]; omega
        simp [this, List.take_of_length_le]
      have hd : (data.take i ++ e ++ data.drop (i + e.length)).drop
          (i + e.length + es.flatten.length) = data.drop (i + (e ++ es.flatten).length) := by
        have : (data.take i ++ e).length = i + e.length := by
          simp [List.length_take]; omega
        rw [List.drop_append_eq_append_drop, this]
        have h0 : (data.take i ++ e).drop (i + e.length + es.flatten.length) = [] := by
          apply List.drop_eq_nil_of_le; omega
        rw [h0, List.nil_append, List.drop_drop, List.length_append]
        congr 1; omega
      rw [ht, hd]; simp
    · simp only [List.length_append, List.length_take, List.length_drop]; omega

theorem removeZeroBytes_replicate (n : Nat) : removeZeroBytes (List.replicate n 0) = [] := by
  induction n with
  | zero => rfl
  | succ n ih => simp [removeZeroBytes, List.replicate_succ]

theorem removeZeroBytes_append (a b : List Byte) :
    removeZeroBytes (a ++ b) = removeZeroBytes a ++ removeZeroBytes b := by
  simp [removeZeroBytes]

theorem decodeLeaf_eq (value : List (List Byte))
    (h : value.flatten.length ≤ MaxClaimSize + 8) :
    decodeLeaf value = some (removeZeroBytes value.flatten) := by
  unfold decodeLeaf
  rw [fillLeafData_some _ _ _ (by simpa using h)]
  simp [removeZeroBytes_append, removeZeroBytes_replicate]

theorem removeZeroBytes_stripTrailingZeros (p : List Byte) :
    removeZeroBytes (stripTrailingZeros p) = removeZeroBytes p := by
  induction p using List.reverseRecOn with
  | nil => rfl
  | append_singleton l a ih =>
    unfold stripTrailingZeros at ih ⊢
    rw [List.rdropWhile_concat]
    split
    · rename_i h
      have : a = 0 := by simpa using h
      rw [ih, removeZeroBytes_append, this]
      simp [removeZeroBytes]
    · rfl

theorem removeZeroBytes_doPadding (p : List Byte) :
    removeZeroBytes (doPadding p) = removeZeroBytes p := by
  rw [doPadding_eq, removeZeroBytes_append, removeZeroBytes_replicate, List.append_nil]

theorem entryValue_zeroPad : ZeroPadLayout entryValue := by
  intro c hc
  have hr : List.range 4 = [0, 1, 2, 3] := by decide
  have hsplit : c.dataSlot = c.dataSlot.take 30 ++ ((c.dataSlot.drop 30).take 30 ++
      ((c.dataSlot.drop 60).take 30 ++ (c.dataSlot.drop 90).take 30)) := by
    have h4 : (c.dataSlot.drop 90).take 30 = c.dataSlot.drop 90 := by
      apply List.take_of_length_le
      rw [List.length_drop, hc]; decide
    rw [h4]
    have e1 : c.dataSlot.drop 90 = ((c.dataSlot.drop 30).drop 30).drop 30 := by
      simp [List.drop_drop]
    have e2 : c.dataSlot.drop 60 = (c.dataSlot.drop 30).drop 30 := by
      simp [List.drop_drop]
    rw [e1, e2, List.take_append_drop, List.take_append_drop, List.take_append_drop]
  constructor
  · simp only [entryValue, hr, List.map_cons, List.map_nil, List.flatten_cons,
      List.flatten_nil, List.length_append, List.length_take, List.length_drop, hc,
      List.length_cons, List.length_nil]
    decide
  · conv_rhs => rw [hsplit]
    simp [entryValue, hr, removeZeroBytes]

/-! ## The claims on the codec -/

set_option maxRecDepth 100000 in
/-- C1, as stated, fails: the payload `[1, 0, 2]` has no trailing zero byte, so
stripping them leaves it whole, yet the leaf decodes to `[1, 2]`: the zero byte
in the middle is removed as well. -/
theorem claim_roundtrip_counterexample :
    Claim [1, 0, 2] = some (Except.ok (slotsOf (doPadding [1, 0, 2]))) ∧
    stripTrailingZeros [1, 0, 2] = [1, 0, 2] ∧
    decodeLeaf (entryValue (slotsOf (doPadding [1, 0, 2]))) = some [1, 2] ∧
    decodeLeaf (entryValue (slotsOf (doPadding [1, 0, 2])))
      ≠ some (stripTrailingZeros [1, 0, 2]) := by
  decide

/-- C1, amended: for every payload `p` of at most 120 bytes, and every layout of
the value fields that only adds zero bytes, encoding succeeds and the leaf
decodes to `p` with every zero byte removed, wherever it stands; that is `p`
with its trailing zero bytes stripped exactly when no zero byte stands before
the last non-zero byte of `p`. -/
theorem claim_roundtrip_removes_zero_bytes (value : ClaimBasic → List (List Byte))
    (hv : ZeroPadLayout value) (p : List Byte) (hp : p.length ≤ 120) :
    ∃ c, Claim p = some (Except.ok c) ∧
      decodeLeaf (value c) = some (removeZeroBytes p) ∧
      (decodeLeaf (value c) = some (stripTrailingZeros p) ↔
        ∀ b ∈ stripTrailingZeros p, b ≠ 0) := by
  refine ⟨_, Claim_ok p hp, ?_⟩
  have hlen : (slotsOf (doPadding p)).dataSlot.length = MaxClaimSize := by
    rw [slotsOf_dataSlot _ (doPadding_length p hp), doPadding_length p hp]
  obtain ⟨h1, h2⟩ := hv _ hlen
  have hd : decodeLeaf (value (slotsOf (doPadding p))) = some (removeZeroBytes p) := by
    rw [decodeLeaf_eq _ h1, h2, slotsOf_dataSlot _ (doPadding_length p hp),
      removeZeroBytes_doPadding]
  refine ⟨hd, ?_⟩
  rw [hd, Option.some_inj, ← removeZeroBytes_stripTrailingZeros p]
  unfold removeZeroBytes
  rw [List.filter_eq_self]
  simp

/-- Witness of C1 amended, at the payload `[1, 0, 2]` and the field layout
`entryValue`. -/
theorem claim_roundtrip_removes_zero_bytes_witness :
    ∃ c, Claim [1, 0, 2] = some (Except.ok c) ∧
      decodeLeaf (entryValue c) = some (removeZeroBytes [1, 0, 2]) ∧
      (decodeLeaf (entryValue c) = some (stripTrailingZeros [1, 0, 2]) ↔
        ∀ b ∈ stripTrailingZeros [1, 0, 2], b ≠ 0) :=
  claim_roundtrip_removes_zero_bytes entryValue entryValue_zeroPad [1, 0, 2] (by decide)

/-- C2: `Tree.Claim` returns an error exactly for the payloads longer than 120
bytes (the error being "claim data too large") and returns a claim exactly for
the payloads of at most 120 bytes; it never panics. -/
theorem Claim_error_iff_too_large (data : List Byte) :
    ((∃ e, Claim data = some (Except.error e)) ↔ 120 < data.length) ∧
    (Claim data = some (Except.error "claim data too large") ↔ 120 < data.length) ∧
    ((∃ c, Claim data = some (Except.ok c)) ↔ data.length ≤ 120) ∧
    Claim data ≠ none := by
  by_cases h : 120 < data.length
  · have : Claim data = some (Except.error "claim data too large") := by
      unfold Claim; rw [if_pos (show data.length > MaxClaimSize from h)]
    simp [this, h]
  · have : Claim data = some (Except.ok (slotsOf (doPadding data))) :=
      Claim_ok data (by unfold MaxClaimSize; omega)
    simp [this, h]; omega

/-- C3: for a payload `p` of at most 120 bytes the claim is built, its value
slot is `p` followed by `120 - len p` zero bytes, 120 bytes in all, and its
index slot (112 bytes) is the first 50 bytes of the padded payload followed by
zero bytes only. -/
theorem Claim_slots (p : List Byte) (hp : p.length ≤ 120) :
    ∃ c, Claim p = some (Except.ok c) ∧
      c.dataSlot = p ++ List.replicate (120 - p.length) 0 ∧
      c.dataSlot.length = 120 ∧
      c.indexSlot.take 50 = (p ++ List.replicate (120 - p.length) 0).take 50 ∧
      c.indexSlot.drop 50 = List.replicate 62 0 ∧
      c.indexSlot.length = 112 := by
  have hl : (doPadding p).length = 120 := doPadding_length p hp
  have hi : (slotsOf (doPadding p)).indexSlot
      = (doPadding p).take 50 ++ List.replicate 62 0 := rfl
  have hd := slotsOf_dataSlot (doPadding p) hl
  have ht : ((doPadding p).take 50).length = 50 := by
    rw [List.length_take]; omega
  refine ⟨_, Claim_ok p hp, ?_, ?_, ?_, ?_, ?_⟩
  · rw [hd, doPadding_eq]; rfl
  · rw [hd, hl]
  · rw [hi, List.take_append_eq_append_take, ht, doPadding_eq p]; simp [MaxClaimSize]
  · rw [hi, List.drop_append_eq_append_drop, ht]; simp
  · rw [hi, List.length_append, ht]; simp

set_option maxRecDepth 100000 in
/-- Witness of C3 at the payload `[7, 0, 9]`. -/
theorem Claim_slots_witness :
    ∃ c, Claim [7, 0, 9] = some (Except.ok c) ∧
      c.dataSlot = [7, 0, 9] ++ List.replicate (120 - ([7, 0, 9] : List Byte).length) 0 ∧
      c.dataSlot.length = 120 ∧
      c.indexSlot.take 50 =
        ([7, 0, 9] ++ List.replicate (120 - ([7, 0, 9] : List Byte).length) 0).take 50 ∧
      c.indexSlot.drop 50 = List.replicate 62 0 ∧
      c.indexSlot.length = 112 :=
  Claim_slots [7, 0, 9] (by decide)

/-! ## The tree and its proofs -/

/-- The claim that `AddClaim`, `GenProof` and `CheckProof` build from a payload:
`AddClaim` does not panic, whatever the payload. -/
theorem AddClaim_eq {τ π : Type} (lib : MerkleTreeLib τ π) (t : τ) (data : List Byte) :
    AddClaim lib t data =
      some (lib.addEntry t (slotsOf (if data.length < MaxClaimSize then doPadding data
        else data))) := by
  unfold AddClaim
  simp only [getClaimFromData_some _ (padded_ge data)]

theorem slotsOf_take (data : List Byte) :
    slotsOf (data.take MaxClaimSize) = slotsOf data := by
  simp [slotsOf, List.take_take, MaxClaimSize]

/-- What `AddClaim` does with a payload longer than `MaxClaimSize`: what it does
with the first `MaxClaimSize` bytes of it. -/
theorem AddClaim_long {τ π : Type} (lib : MerkleTreeLib τ π) (t : τ) (data : List Byte)
    (h : MaxClaimSize < data.length) :
    AddClaim lib t data = AddClaim lib t (data.take MaxClaimSize) := by
  have h1 : ¬ data.length < MaxClaimSize := by omega
  have h2 : ¬ (data.take MaxClaimSize).length < MaxClaimSize := by
    rw [List.length_take]; omega
  rw [AddClaim_eq, AddClaim_eq, if_neg h1, if_neg h2, slotsOf_take]

theorem addClaims_eq_addEntries {τ π : Type} (lib : MerkleTreeLib τ π) (t : τ)
    (ps : List (List Byte)) :
    addClaims lib t ps = some (addEntries lib t (ps.map (fun p =>
      slotsOf (if p.length < MaxClaimSize then doPadding p else p)))) := by
  induction ps generalizing t with
  | nil => rfl
  | cons p ps ih => simp only [addClaims, List.map_cons, addEntries, ih, AddClaim_eq]

theorem goCopy_zero32 (src : List Byte) (h : src.length = 32) :
    goCopy (List.replicate 32 0) src = src := by
  simp [goCopy, h, List.take_of_length_le]

/-! ### The Merkle tree `smtLib` keeps the laws -/

theorem unhex_hexDigit : ∀ x : Fin 16, unhexDigit (hexDigit x.val) = some x.val := by
  decide

theorem decodeHex_hexString (bs : List Byte) :
    decodeHex (hexString bs).data = Except.ok bs := by
  induction bs with
  | nil => rfl
  | cons b bs ih =>
    have h1 := unhex_hexDigit ⟨b.val / 16, by omega⟩
    have h2 := unhex_hexDigit ⟨b.val % 16, by omega⟩
    simp only at h1 h2
    simp only [hexString, List.flatMap_cons, List.cons_append, List.nil_append] at ih ⊢
    simp only [decodeHex, h1, h2, ih]
    congr 2
    apply Fin.ext
    simp [Fin.ofNat]
    omega

theorem smt_hex_roundtrip (bs : List Byte) :
    smtLib.hexDecode (smtLib.hexEncode bs) = Except.ok bs := by
  show (match ("0x" ++ hexString bs).data with
    | '0' :: 'x' :: rest => decodeHex rest
    | cs => decodeHex cs) = Except.ok bs
  have : ("0x" ++ hexString bs).data = '0' :: 'x' :: (hexString bs).data := rfl
  rw [this]
  exact decodeHex_hexString bs

theorem takeHash_append (h : Hash) (rest : List Byte) :
    takeHash (h.val ++ rest) = Except.ok (h, rest) := by
  have ht : (h.val ++ rest).take 32 = h.val := by
    rw [List.take_append_eq_append_take, h.property]; simp
  have hd : (h.val ++ rest).drop 32 = rest := by
    rw [List.drop_append_eq_append_drop, h.property]; simp
  unfold takeHash
  rw [dif_pos (by rw [ht]; exact h.property)]
  simp only [hd, ht]

theorem parseLevels_levelBytes (levels : List (Option Hash)) (rest : List Byte) :
    parseLevels levels.length ((levels.map levelBytes).flatten ++ rest)
      = Except.ok (levels, rest) := by
  induction levels with
  | nil => rfl
  | cons s levels ih =>
    cases s with
    | none =>
      simp only [List.length_cons, List.map_cons, List.flatten_cons, levelBytes,
        List.cons_append, List.nil_append, parseLevels, if_true, ih]
    | some h =>
      have h10 : ¬ ((1 : Byte) = 0) := by decide
      simp only [List.length_cons, List.map_cons, List.flatten_cons, levelBytes,
        List.cons_append, List.nil_append, parseLevels, if_neg h10, List.append_assoc,
        takeHash_append, ih]

theorem smtProofFromBytes_smtProofBytes (proof : SmtProof)
    (h : proof.siblings.length < 256) :
    smtProofFromBytes (smtProofBytes proof) = Except.ok proof := by
  have hn : (Fin.ofNat proof.siblings.length : Byte).val = proof.siblings.length := by
    simp [Fin.ofNat]; omega
  have he : decide ((if proof.Existence then (1 : Byte) else 0) ≠ 0) = proof.Existence := by
    cases proof.Existence <;> decide
  obtain ⟨ex, sib, aux⟩ := proof
  simp only at hn he h
  cases aux with
  | none =>
    simp only [smtProofBytes, List.cons_append, List.nil_append, smtProofFromBytes, hn, he]
    rw [parseLevels_levelBytes]
    simp
  | some p =>
    obtain ⟨hi, hv⟩ := p
    have h10 : ¬ ((1 : Byte) = 0) := by decide
    have hv' : takeHash hv.val = Except.ok (hv, []) := by
      have := takeHash_append hv []
      rwa [List.append_nil] at this
    simp only [smtProofBytes, List.cons_append, List.nil_append, smtProofFromBytes, hn, he]
    rw [parseLevels_levelBytes]
    simp only [if_neg h10, takeHash_append, hv']

theorem genProofFrom_length (hIndex : Hash) (n : Node) (acc : List (Option Hash))
    (proof : SmtProof) (h : genProofFrom hIndex n acc = Except.ok proof) :
    proof.siblings.length < maxLevels := by
  induction n generalizing acc with
  | empty =>
    unfold genProofFrom at h
    split at h
    · simp only [Except.ok.injEq] at h; rw [← h]; assumption
    · simp at h
  | leaf c =>
    unfold genProofFrom at h
    split at h
    · split at h <;> (simp only [Except.ok.injEq] at h; rw [← h]; assumption)
    · simp at h
  | middle l r ihl ihr =>
    unfold genProofFrom at h
    split at h
    · split at h
      · exact ihr _ h
      · exact ihl _ h
    · simp at h

theorem pushLeaf_holds (newLeaf oldLeaf : ClaimBasic) (fuel lvl : Nat) (m : Node)
    (h : pushLeaf newLeaf oldLeaf fuel lvl = Except.ok m) :
    Node.holds newLeaf m lvl ∧ Node.holds oldLeaf m lvl := by
  induction fuel generalizing lvl m with
  | zero => simp [pushLeaf] at h
  | succ fuel ih =>
    unfold pushLeaf at h
    split at h
    · simp at h
    · rename_i hl
      have hl1 : lvl < maxLevels := by unfold maxLevels at hl ⊢; omega
      have hl2 : lvl + 1 < maxLevels := by unfold maxLevels at hl ⊢; omega
      split at h
      · rename_i hb
        cases hr : pushLeaf newLeaf oldLeaf fuel (lvl + 1) with
        | error err => rw [hr] at h; simp at h
        | ok next =>
          rw [hr] at h
          obtain ⟨hn, ho⟩ := ih _ _ hr
          simp only at h
          split at h
          · rename_i hbn
            simp only [Except.ok.injEq] at h
            subst h
            exact ⟨⟨hl1, by rw [if_pos hbn]; exact hn⟩,
              ⟨hl1, by rw [if_pos (hb ▸ hbn)]; exact ho⟩⟩
          · rename_i hbn
            simp only [Except.ok.injEq] at h
            subst h
            exact ⟨⟨hl1, by rw [if_neg hbn]; exact hn⟩,
              ⟨hl1, by rw [if_neg (hb ▸ hbn)]; exact ho⟩⟩
      · rename_i hb
        split at h
        · rename_i hbn
          simp only [Except.ok.injEq] at h
          subst h
          have hbo : ¬ pathBit (hIndexOf oldLeaf) lvl = true := by
            intro hbo; exact hb (hbn.trans hbo.symm)
          exact ⟨⟨hl1, by rw [if_pos hbn]; exact ⟨rfl, hl2⟩⟩,
            ⟨hl1, by rw [if_neg hbo]; exact ⟨rfl, hl2⟩⟩⟩
        · rename_i hbn
          simp only [Except.ok.injEq] at h
          subst h
          have hbo : pathBit (hIndexOf oldLeaf) lvl = true := by
            cases hx : pathBit (hIndexOf oldLeaf) lvl with
            | true => rfl
            | false =>
              exfalso; apply hb
              rw [hx]; simpa using hbn
          exact ⟨⟨hl1, by rw [if_neg hbn]; exact ⟨rfl, hl2⟩⟩,
            ⟨hl1, by rw [if_pos hbo]; exact ⟨rfl, hl2⟩⟩⟩

theorem addLeaf_holds_new (c : ClaimBasic) (n : Node) (lvl : Nat) (n1 : Node)
    (h : addLeaf c n lvl = Except.ok n1) : Node.holds c n1 lvl := by
  induction n generalizing lvl n1 with
  | empty =>
    unfold addLeaf at h
    split at h
    · simp at h
    · rename_i hl
      simp only [Except.ok.injEq] at h
      subst h
      exact ⟨rfl, by unfold maxLevels at hl ⊢; omega⟩
  | leaf old =>
    unfold addLeaf at h
    split at h
    · simp at h
    · split at h
      · simp at h
      · exact (pushLeaf_holds _ _ _ _ _ h).1
  | middle l r ihl ihr =>
    unfold addLeaf at h
    split at h
    · simp at h
    · rename_i hl
      have hl1 : lvl < maxLevels := by unfold maxLevels at hl ⊢; omega
      split at h
      · rename_i hb
        cases hr : addLeaf c r (lvl + 1) with
        | error err => rw [hr] at h; simp at h
        | ok next =>
          rw [hr] at h
          simp only [Except.ok.injEq] at h
          subst h
          exact ⟨hl1, by rw [if_pos hb]; exact ihr _ _ hr⟩
      · rename_i hb
        cases hr : addLeaf c l (lvl + 1) with
        | error err => rw [hr] at h; simp at h
        | ok next =>
          rw [hr] at h
          simp only [Except.ok.injEq] at h
          subst h
          exact ⟨hl1, by rw [if_neg hb]; exact ihl _ _ hr⟩

theorem addLeaf_holds_old (c0 c : ClaimBasic) (n : Node) (lvl : Nat) (n1 : Node)
    (h0 : Node.holds c0 n lvl) (h : addLeaf c n lvl = Except.ok n1) :
    Node.holds c0 n1 lvl := by
  induction n generalizing lvl n1 with
  | empty => exact absurd h0 (by simp [Node.holds])
  | leaf old =>
    obtain ⟨he, _⟩ := h0
    subst he
    unfold addLeaf at h
    split at h
    · simp at h
    · split at h
      · simp at h
      · exact (pushLeaf_holds _ _ _ _ _ h).2
  | middle l r ihl ihr =>
    obtain ⟨hl1, hside⟩ := h0
    unfold addLeaf at h
    split at h
    · simp at h
    · split at h
      · rename_i hb
        cases hr : addLeaf c r (lvl + 1) with
        | error err => rw [hr] at h; simp at h
        | ok next =>
          rw [hr] at h
          simp only [Except.ok.injEq] at h
          subst h
          refine ⟨hl1, ?_⟩
          by_cases hb0 : pathBit (hIndexOf c0) lvl = true
          · rw [if_pos hb0] at hside ⊢
            exact ihr _ _ hside hr
          · rw [if_neg hb0] at hside ⊢
            exact hside
      · rename_i hb
        cases hr : addLeaf c l (lvl + 1) with
        | error err => rw [hr] at h; simp at h
        | ok next =>
          rw [hr] at h
          simp only [Except.ok.injEq] at h
          subst h
          refine ⟨hl1, ?_⟩
          by_cases hb0 : pathBit (hIndexOf c0) lvl = true
          · rw [if_pos hb0] at hside ⊢
            exact hside
          · rw [if_neg hb0] at hside ⊢
            exact ihl _ _ hside hr

theorem smt_addEntry_holds_new (t : Node) (c : ClaimBasic)
    (h : (smtLib.addEntry t c).1 = none) : Node.holds c (smtLib.addEntry t c).2 0 := by
  show Node.holds c (match addLeaf c t 0 with
    | Except.error err => (some err, t)
    | Except.ok t1 => (none, t1)).2 0
  have h' : (match addLeaf c t 0 with
    | Except.error err => (some err, t)
    | Except.ok t1 => ((none : Option String), t1)).1 = none := h
  cases hr : addLeaf c t 0 with
  | error err => rw [hr] at h'; simp at h'
  | ok t1 => exact addLeaf_holds_new _ _ _ _ hr

theorem smt_addEntry_holds_old (t : Node) (c0 c : ClaimBasic) (h0 : Node.holds c0 t 0) :
    Node.holds c0 (smtLib.addEntry t c).2 0 := by
  show Node.holds c0 (match addLeaf c t 0 with
    | Except.error err => (some err, t)
    | Except.ok t1 => (none, t1)).2 0
  cases hr : addLeaf c t 0 with
  | error err => exact h0
  | ok t1 => exact addLeaf_holds_old _ _ _ _ _ h0 hr

theorem smt_addEntries_holds (t : Node) (c0 : ClaimBasic) (cs : List ClaimBasic)
    (h0 : Node.holds c0 t 0) : Node.holds c0 (addEntries smtLib t cs) 0 := by
  induction cs generalizing t with
  | nil => exact h0
  | cons c cs ih => exact ih _ (smt_addEntry_holds_old t c0 c h0)

theorem addEntries_append {τ π : Type} (lib : MerkleTreeLib τ π) (t : τ)
    (xs ys : List ClaimBasic) :
    addEntries lib t (xs ++ ys) = addEntries lib (addEntries lib t xs) ys := by
  induction xs generalizing t with
  | nil => rfl
  | cons x xs ih => exact ih _

theorem genProofFrom_holds (c : ClaimBasic) (n : Node) (acc : List (Option Hash))
    (h : Node.holds c n acc.length) :
    ∃ sibs, genProofFrom (hIndexOf c) n acc
        = Except.ok { Existence := true, siblings := acc ++ sibs, nodeAux := none } ∧
      rootFrom (hIndexOf c) acc.length sibs (leafKey (hIndexOf c) (hValueOf c)) = n.key := by
  induction n generalizing acc with
  | empty => exact absurd h (by simp [Node.holds])
  | leaf c1 =>
    obtain ⟨he, hl⟩ := h
    subst he
    refine ⟨[], ?_, rfl⟩
    unfold genProofFrom
    rw [if_pos hl, if_pos rfl, List.append_nil]
  | middle l r ihl ihr =>
    obtain ⟨hl, hside⟩ := h
    by_cases hb : pathBit (hIndexOf c) acc.length = true
    · rw [if_pos hb] at hside
      have hlen : (acc ++ [if l.key ≠ HashZero then some l.key else none]).length
          = acc.length + 1 := by simp
      obtain ⟨sibs, hg, hr⟩ := ihr (acc ++ [if l.key ≠ HashZero then some l.key else none])
        (by rw [hlen]; exact hside)
      refine ⟨(if l.key ≠ HashZero then some l.key else none) :: sibs, ?_, ?_⟩
      · unfold genProofFrom
        rw [if_pos hl, if_pos hb, hg]
        simp
      · rw [hlen] at hr
        unfold rootFrom
        rw [if_pos hb, hr]
        show middleKey _ r.key = middleKey l.key r.key
        congr 1
        by_cases hz : l.key = HashZero
        · simp [hz]
        · simp [hz]
    · rw [if_neg hb] at hside
      have hlen : (acc ++ [if r.key ≠ HashZero then some r.key else none]).length
          = acc.length + 1 := by simp
      obtain ⟨sibs, hg, hr⟩ := ihl (acc ++ [if r.key ≠ HashZero then some r.key else none])
        (by rw [hlen]; exact hside)
      refine ⟨(if r.key ≠ HashZero then some r.key else none) :: sibs, ?_, ?_⟩
      · unfold genProofFrom
        rw [if_pos hl, if_neg hb, hg]
        simp
      · rw [hlen] at hr
        unfold rootFrom
        rw [if_neg hb, hr]
        show middleKey l.key _ = middleKey l.key r.key
        congr 1
        by_cases hz : r.key = HashZero
        · simp [hz]
        · simp [hz]

/-- The tree of `smtLib` keeps the laws that `tree.go` relies on. -/
theorem smtLib_laws : MerkleTreeLaws smtLib Node.empty where
  hex_roundtrip := smt_hex_roundtrip
  proof_roundtrip := by
    intro t h mp hg
    apply smtProofFromBytes_smtProofBytes
    have := genProofFrom_length h t [] mp hg
    unfold maxLevels at this
    omega
  root_length := fun t => t.key.property
  complete := by
    intro pre c post hok
    have h1 := smt_addEntry_holds_new _ _ hok
    have h2 : Node.holds c (addEntries smtLib Node.empty (pre ++ c :: post)) 0 := by
      rw [addEntries_append]
      exact smt_addEntries_holds _ c post h1
    obtain ⟨sibs, hg, hr⟩ := genProofFrom_holds c _ [] h2
    refine ⟨hIndexOf c, hValueOf c, _, rfl, rfl, hg, rfl, ?_⟩
    intro r hrv
    have : r = (addEntries smtLib Node.empty (pre ++ c :: post)).key := Subtype.ext hrv
    rw [this]
    show decide (rootFromProof _ (hIndexOf c) (hValueOf c) = _) = true
    rw [decide_eq_true_eq]
    simpa [rootFromProof] using hr

/-- C5: for every tree grown from the empty tree by `AddClaim` calls, on
libraries that keep `MerkleTreeLaws`, and every payload `p` of at most 120
bytes for which one of these calls returned no error, `GenProof(p)` returns a
proof and `CheckProof(Root(), GenProof(p), p)` returns true and no error. -/
theorem CheckProof_GenProof_complete {τ π : Type} (lib : MerkleTreeLib τ π) (empty : τ)
    (laws : MerkleTreeLaws lib empty) (ps : List (List Byte)) (p : List Byte)
    (hp : p.length ≤ 120) (hadd : AddedClaim lib empty ps p) :
    ∃ t mpHex, addClaims lib empty ps = some t ∧
      GenProof lib t p = some (Except.ok mpHex) ∧
      CheckProof lib (Root lib t) mpHex p = some (Except.ok true) := by
  obtain ⟨pre, post, t0, t1, hps, hpre, hok⟩ := hadd
  rw [addClaims_eq_addEntries] at hpre
  rw [← Option.some.inj hpre, AddClaim_eq] at hok
  have hok1 := congrArg Prod.fst (Option.some.inj hok)
  simp only at hok1
  obtain ⟨hi, hv, mp, hhi, hhv, hgen, hex, hver⟩ := laws.complete _ _
    (post.map (fun p => slotsOf (if p.length < MaxClaimSize then doPadding p else p)))
    hok1
  have ht : addClaims lib empty ps = some (addEntries lib empty
      (pre.map (fun p => slotsOf (if p.length < MaxClaimSize then doPadding p else p))
        ++ slotsOf (if p.length < MaxClaimSize then doPadding p else p)
        :: post.map (fun p =>
          slotsOf (if p.length < MaxClaimSize then doPadding p else p)))) := by
    rw [addClaims_eq_addEntries, hps, List.map_append, List.map_cons]
  have hlen := padded_length p hp
  have hpad : (if (if p.length < MaxClaimSize then doPadding p else p).length < MaxClaimSize
      then doPadding (if p.length < MaxClaimSize then doPadding p else p)
      else (if p.length < MaxClaimSize then doPadding p else p))
      = (if p.length < MaxClaimSize then doPadding p else p) := by
    rw [if_neg (by omega)]
  have hclaim : Claim (if p.length < MaxClaimSize then doPadding p else p) =
      some (Except.ok (slotsOf (if p.length < MaxClaimSize then doPadding p else p))) := by
    unfold Claim
    rw [if_neg (by omega)]
    simp only [hpad, getClaimFromData_some _ (padded_ge p)]
  refine ⟨_, lib.hexEncode (lib.proofBytes mp), ht, ?_, ?_⟩
  · unfold GenProof
    simp only [hclaim, hhi, hgen, hex]
    rfl
  · unfold CheckProof stringToHash Root
    simp only [laws.hex_roundtrip, laws.proof_roundtrip _ _ _ hgen,
      getClaimFromData_some _ (padded_ge p), hhv, hhi]
    rw [hver]
    exact goCopy_zero32 _ (laws.root_length _)

set_option maxRecDepth 100000 in
/-- Witness of C5 on `smtLib`: three claims are added, the second is proved. -/
theorem CheckProof_GenProof_complete_witness :
    ∃ t mpHex, addClaims smtLib Node.empty [[1, 2, 3], [4, 5], [6]] = some t ∧
      GenProof smtLib t [4, 5] = some (Except.ok mpHex) ∧
      CheckProof smtLib (Root smtLib t) mpHex [4, 5] = some (Except.ok true) :=
  CheckProof_GenProof_complete smtLib Node.empty smtLib_laws [[1, 2, 3], [4, 5], [6]] [4, 5]
    (by decide)
    ⟨[[1, 2, 3]], [[6]], Node.leaf (slotsOf (doPadding [1, 2, 3])),
      (smtLib.addEntry (Node.leaf (slotsOf (doPadding [1, 2, 3])))
        (slotsOf (doPadding [4, 5]))).2, rfl, by decide, by decide⟩

set_option maxRecDepth 100000 in
/-- C4 on the code: a payload of 121 bytes, which `Tree.Claim` refuses, is not
refused by `AddClaim`. Whatever the library and the tree, `AddClaim` hands
the claim of the first 120 bytes to `AddEntry` and returns what `AddEntry`
returns; on the empty tree of `smtLib` that is no error, and the tree left
has that claim as its only leaf and another root. -/
theorem AddClaim_too_large_is_added {τ π : Type} (lib : MerkleTreeLib τ π) (t : τ) :
    (List.replicate 121 (1 : Byte)).length = 121 ∧
    Claim (List.replicate 121 1) = some (Except.error "claim data too large") ∧
    getClaimFromData (List.replicate 120 1) = some (slotsOf (List.replicate 120 1)) ∧
    (slotsOf (List.replicate 120 1)).dataSlot = List.replicate 120 1 ∧
    AddClaim lib t (List.replicate 121 1)
      = some (lib.addEntry t (slotsOf (List.replicate 120 1))) ∧
    AddClaim smtLib Node.empty (List.replicate 121 1)
      = some (none, Node.leaf (slotsOf (List.replicate 120 1))) ∧
    Root smtLib (Node.leaf (slotsOf (List.replicate 120 1))) ≠ Root smtLib Node.empty := by
  refine ⟨by decide, by decide, by decide, by decide, ?_, by decide, by decide⟩
  have h := AddClaim_long lib t (List.replicate 121 1) (by decide)
  rw [h, AddClaim_eq]
  have : ¬ ((List.replicate 121 (1 : Byte)).take MaxClaimSize).length < MaxClaimSize := by
    decide
  rw [if_neg this]
  congr 1

/-! ## The registry of census trees -/

theorem kvGet_kvSet_self {β : Type} (m : Bindings β) (k : List Byte) (v : β) :
    kvGet (kvSet m k v) k = some v := by
  simp [kvGet, kvSet]

theorem kvGet_kvDel_self {β : Type} (m : Bindings β) (k : List Byte) :
    kvGet (kvDel m k) k = none := by
  simp [kvGet, kvDel, List.find?_eq_none]

theorem checkAuth_none {η : Type} (ref : CensusRef η) : checkAuth none ref = none := rfl

theorem checkAuth_eq_none_iff {η : Type} (authToken : Option UUID) (ref : CensusRef η) :
    checkAuth authToken ref = none ↔ ∀ token, authToken = some token → ref.AuthToken = some token := by
  unfold checkAuth
  cases authToken with
  | none => simp
  | some token =>
    cases h : ref.AuthToken with
    | none => simp
    | some stored =>
      simp only [ne_eq, ite_not, Option.some.injEq, forall_eq']
      split
      · rename_i h'; simp [h']
      · rename_i h'; simp; exact fun h'' => h' h''.symm

theorem checkAuth_locked_iff {η : Type} (authToken : Option UUID) (ref : CensusRef η) :
    checkAuth authToken ref = some "census is locked" ↔
      authToken ≠ none ∧ ref.AuthToken = none := by
  unfold checkAuth
  cases authToken with
  | none => simp
  | some token =>
    cases h : ref.AuthToken with
    | none => simp
    | some stored =>
      simp only [ne_eq, ite_not]
      split <;> simp

theorem checkAuth_wrong_iff {η : Type} (authToken : Option UUID) (ref : CensusRef η) :
    checkAuth authToken ref = some "wrong authentication token" ↔
      ∃ token stored, authToken = some token ∧ ref.AuthToken = some stored ∧ stored ≠ token := by
  unfold checkAuth
  cases authToken with
  | none => simp
  | some token =>
    cases h : ref.AuthToken with
    | none => simp
    | some stored =>
      simp only [ne_eq, ite_not]
      split
      · rename_i h'; simp [h']
      · rename_i h'; simp; exact fun h'' => h' h''.symm

theorem Load_cached {σ η : Type} (env : CensusEnv σ η) (c : CensusDB σ η)
    (censusID : List Byte) (authToken : Option UUID) (ref : CensusRef η)
    (h : kvGet c.censusMap censusID = some ref) :
    c.Load env censusID authToken =
      match checkAuth authToken ref with
      | some err => (Except.error err, c)
      | none => (Except.ok ref, c) := by
  unfold CensusDB.Load
  rw [h]

/-- C6: for a census that exists (a reference `ref` is in `censusMap`), `Load`
fails exactly when a token is given and the reference does not hold that very
token; the error is "census is locked" exactly when a token is given and the
reference holds none, "wrong authentication token" exactly when both are
there and differ; without token `Load` returns the reference and changes
nothing, whatever token is stored. -/
theorem Load_auth_rule {σ η : Type} (env : CensusEnv σ η) (c : CensusDB σ η)
    (censusID : List Byte) (authToken : Option UUID) (ref : CensusRef η)
    (h : kvGet c.censusMap censusID = some ref) :
    c.Exists censusID = true ∧
    ((∃ err, (c.Load env censusID authToken).1 = Except.error err) ↔
      ∃ token, authToken = some token ∧ ref.AuthToken ≠ some token) ∧
    ((c.Load env censusID authToken).1 = Except.error "census is locked" ↔
      authToken ≠ none ∧ ref.AuthToken = none) ∧
    ((c.Load env censusID authToken).1 = Except.error "wrong authentication token" ↔
      ∃ token stored, authToken = some token ∧ ref.AuthToken = some stored ∧ stored ≠ token) ∧
    ((∀ token, authToken = some token → ref.AuthToken = some token) →
      c.Load env censusID authToken = (Except.ok ref, c)) ∧
    c.Load env censusID none = (Except.ok ref, c) := by
  have hl := Load_cached env c censusID authToken ref h
  have hn := Load_cached env c censusID none ref h
  rw [checkAuth_none] at hn
  refine ⟨by simp [CensusDB.Exists, h], ?_, ?_, ?_, ?_, hn⟩
  · cases hc : checkAuth authToken ref with
    | none =>
      rw [hc] at hl
      have := (checkAuth_eq_none_iff authToken ref).1 hc
      simp only [hl, false_iff, not_exists, not_and, not_not, reduceCtorEq, exists_false]
      exact this
    | some err =>
      rw [hc] at hl
      have hne : ¬ (∀ token, authToken = some token → ref.AuthToken = some token) := by
        rw [← checkAuth_eq_none_iff, hc]; simp
      simp only [hl, Except.error.injEq, exists_eq', true_iff]
      by_contra hcon
      exact hne (fun token ht => by
        by_contra hx
        exact hcon ⟨token, ht, hx⟩)
  · rw [← checkAuth_locked_iff]
    cases hc : checkAuth authToken ref with
    | none => rw [hc] at hl; simp [hl]
    | some err => rw [hc] at hl; simp [hl]
  · rw [← checkAuth_wrong_iff]
    cases hc : checkAuth authToken ref with
    | none => rw [hc] at hl; simp [hl]
    | some err => rw [hc] at hl; simp [hl]
  · intro hall
    rw [(checkAuth_eq_none_iff authToken ref).2 hall] at hl
    exact hl

/-- Witness of C6 on `registryA`, whose census `[1]` holds `tokenA`, for a
`Load` with `tokenB`. -/
theorem Load_auth_rule_witness :
    kvGet registryA.censusMap [1] = some
      { tree := some "cs_01", AuthToken := some tokenA, CensusType := 0, Indexed := false,
        IsPublic := false } ∧
    (registryA.Load simpleEnv [1] (some tokenB)).1 = Except.error "wrong authentication token" ∧
    registryA.Load simpleEnv [1] none = (Except.ok
      { tree := some "cs_01", AuthToken := some tokenA, CensusType := 0, Indexed := false,
        IsPublic := false }, registryA) :=
  have h : kvGet registryA.censusMap [1] = some
      { tree := some "cs_01", AuthToken := some tokenA, CensusType := 0, Indexed := false,
        IsPublic := false } := by decide
  ⟨h, (Load_auth_rule simpleEnv registryA [1] (some tokenB) _ h).2.2.2.1.2
      ⟨tokenB, tokenA, rfl, rfl, by decide⟩,
    (Load_auth_rule simpleEnv registryA [1] (some tokenB) _ h).2.2.2.2.2⟩

/-- The rule of C6 when the census is not in memory but its record `b` is read
from the database: once the tree opens, `Load` fails exactly when a token is given and
the record does not hold that very token. -/
theorem Load_auth_rule_from_db {σ η : Type} (env : CensusEnv σ η) (c : CensusDB σ η)
    (censusID : List Byte) (authToken : Option UUID) (b : CensusRefRecord) (tree : η) (w : σ)
    (hm : kvGet c.censusMap censusID = none)
    (hg : env.dbGet (censusDBreferencePrefix ++ censusID) = none)
    (hb : kvGet c.db (censusDBreferencePrefix ++ censusID) = some b)
    (ht : env.treeNew (loadOptions censusID
      ({ tree := none, AuthToken := b.AuthToken, CensusType := b.CensusType,
         Indexed := b.Indexed, IsPublic := b.IsPublic } : CensusRef η)) c.world
        = (Except.ok tree, w)) :
    ((∃ err, (c.Load env censusID authToken).1 = Except.error err) ↔
      ∃ token, authToken = some token ∧ b.AuthToken ≠ some token) := by
  unfold CensusDB.Load CensusDB.getCensusRefFromDB
  rw [hm, hg, hb]
  simp only
  cases hc : checkAuth authToken
      ({ tree := none, AuthToken := b.AuthToken, CensusType := b.CensusType,
         Indexed := b.Indexed, IsPublic := b.IsPublic } : CensusRef η) with
  | none =>
    have := (checkAuth_eq_none_iff _ _).1 hc
    simp only [ht, reduceCtorEq, exists_false, false_iff, not_exists, not_and, not_not]
    exact this
  | some err =>
    have hne : ¬ (∀ token, authToken = some token → b.AuthToken = some token) := by
      intro hall
      have := (checkAuth_eq_none_iff authToken
        ({ tree := none, AuthToken := b.AuthToken, CensusType := b.CensusType,
           Indexed := b.Indexed, IsPublic := b.IsPublic } : CensusRef η)).2 hall
      rw [hc] at this
      exact Option.noConfusion this
    simp only [Except.error.injEq, exists_eq', true_iff]
    by_contra hcon
    exact hne (fun token htok => by
      by_contra hx
      exact hcon ⟨token, htok, hx⟩)

/-- C7: `New` on a census id that is in `censusMap` returns the error
"census <id> already exists" and the registry it was called on: the
references in memory, the records of the database, the trees and the
goroutines are what they were. -/
theorem New_already_exists {σ η : Type} (env : CensusEnv σ η) (c : CensusDB σ η)
    (censusID : List Byte) (censusType : Int) (indexed public_ : Bool)
    (authToken : Option UUID) (h : c.Exists censusID = true) :
    c.New env censusID censusType indexed public_ authToken =
      (Except.error ("census " ++ hexString censusID ++ " already exists"), c) ∧
    (c.New env censusID censusType indexed public_ authToken).2.censusMap = c.censusMap ∧
    (c.New env censusID censusType indexed public_ authToken).2.db = c.db := by
  have : c.New env censusID censusType indexed public_ authToken =
      (Except.error ("census " ++ hexString censusID ++ " already exists"), c) := by
    unfold CensusDB.New
    rw [if_pos h]
  rw [this]
  exact ⟨rfl, rfl, rfl⟩

/-- Witness of C7: a second `New` of the census `[1]` on `registryA`, with other
arguments. -/
theorem New_already_exists_witness :
    registryA.New simpleEnv [1] 3 true true (some tokenB) =
      (Except.error ("census " ++ hexString [1] ++ " already exists"), registryA) ∧
    (registryA.New simpleEnv [1] 3 true true (some tokenB)).2.censusMap
      = registryA.censusMap ∧
    (registryA.New simpleEnv [1] 3 true true (some tokenB)).2.db = registryA.db :=
  New_already_exists simpleEnv registryA [1] 3 true true (some tokenB) (by decide)

/-- What `addCensusRefToDB` returns and leaves when it returns no error. -/
theorem addCensusRefToDB_ok {σ η : Type} (env : CensusEnv σ η) (c : CensusDB σ η)
    (censusID : List Byte) (authToken : Option UUID) (t : Int) (indexed public_ : Bool)
    (ref : CensusRef η) (c1 : CensusDB σ η)
    (h : c.addCensusRefToDB env censusID authToken t indexed public_ = (Except.ok ref, c1)) :
    ref = { tree := none, AuthToken := authToken, CensusType := t, Indexed := indexed,
            IsPublic := public_ } ∧
    c1.db = kvSet c.db (censusDBreferencePrefix ++ censusID)
      { AuthToken := authToken, CensusType := t, Indexed := indexed, IsPublic := public_ } ∧
    c1.world = c.world ∧ c1.censusMap = c.censusMap ∧ c1.pending = c.pending := by
  unfold CensusDB.addCensusRefToDB at h
  split at h
  · simp at h
  · split at h
    · simp at h
    · simp only [Prod.mk.injEq, Except.ok.injEq] at h
      obtain ⟨h1, h2⟩ := h
      subst h1 h2
      exact ⟨rfl, rfl, rfl, rfl, rfl⟩

/-- A `New` that returns a reference has stored that reference in `censusMap`. -/
theorem New_ok_cached {σ η : Type} (env : CensusEnv σ η) (c c' : CensusDB σ η)
    (censusID : List Byte) (censusType : Int) (indexed public_ : Bool)
    (authToken : Option UUID) (ref : CensusRef η)
    (h : c.New env censusID censusType indexed public_ authToken = (Except.ok ref, c')) :
    kvGet c'.censusMap censusID = some ref := by
  unfold CensusDB.New at h
  split at h
  · simp at h
  · split at h
    · simp at h
    · split at h
      · simp at h
      · simp only [Prod.mk.injEq, Except.ok.injEq] at h
        obtain ⟨hr, hc⟩ := h
        rw [← hc, ← hr]
        split <;> simp [kvGet_kvSet_self]

/-- C8: when `New(censusID, censusType, indexed, public, authToken)` returns a
reference and no error, the census exists afterwards, `Load(censusID, nil)`
returns that reference, whose four fields are the arguments of `New`, and
the record under `"cr_" + censusID` in the database holds the same four
fields. -/
theorem New_success {σ η : Type} (env : CensusEnv σ η) (c c' : CensusDB σ η)
    (censusID : List Byte) (censusType : Int) (indexed public_ : Bool)
    (authToken : Option UUID) (ref : CensusRef η)
    (h : c.New env censusID censusType indexed public_ authToken = (Except.ok ref, c')) :
    c'.Exists censusID = true ∧
    c'.Load env censusID none = (Except.ok ref, c') ∧
    ref.AuthToken = authToken ∧ ref.CensusType = censusType ∧
    ref.Indexed = indexed ∧ ref.IsPublic = public_ ∧
    kvGet c'.db (censusDBreferencePrefix ++ censusID) = some
      { AuthToken := authToken, CensusType := censusType, Indexed := indexed,
        IsPublic := public_ } := by
  have hget := New_ok_cached env c c' censusID censusType indexed public_ authToken ref h
  unfold CensusDB.New at h
  split at h
  · simp at h
  · split at h
    · simp at h
    · rename_i tree w hnew
      split at h
      · simp at h
      · rename_i ref0 c1 hadd
        simp only [Prod.mk.injEq, Except.ok.injEq] at h
        obtain ⟨hr, hc⟩ := h
        obtain ⟨hr0, hdb, -, -, -⟩ := addCensusRefToDB_ok env _ censusID authToken censusType
          indexed public_ ref0 c1 hadd
        refine ⟨by simp [CensusDB.Exists, hget], ?_, ?_, ?_, ?_, ?_, ?_⟩
        · rw [Load_cached env c' censusID none ref hget, checkAuth_none]
        · rw [← hr, hr0]
        · rw [← hr, hr0]
        · rw [← hr, hr0]
        · rw [← hr, hr0]
        · rw [← hc]
          split <;> simp [hdb, kvGet_kvSet_self]

/-- Witness of C8: the `New` that made `registryA`. -/
theorem New_success_witness :
    registryA.Exists [1] = true ∧
    kvGet registryA.db (censusDBreferencePrefix ++ [1]) = some
      { AuthToken := some tokenA, CensusType := 0, Indexed := false, IsPublic := false } :=
  have h := New_success simpleEnv (NewCensusDB [] []) registryA [1] 0 false false (some tokenA)
    { tree := some "cs_01", AuthToken := some tokenA, CensusType := 0, Indexed := false,
      IsPublic := false } (by decide)
  ⟨h.1, h.2.2.2.2.2.2⟩

/-- The bytes of `censusDBreferencePrefix` spell `cr_`. -/
theorem censusDBreferencePrefix_spells :
    String.mk (censusDBreferencePrefix.map (fun b => Char.ofNat b.val)) = "cr_" := by
  decide

/-- What `Del` does before it returns, for every registry: `censusMap` is what
it was, so `Exists` answers what it answered before the call; when `Del`
returns no error, the record is deleted and the goroutine is pending. -/
theorem Del_Exists_unchanged {σ η : Type} (env : CensusEnv σ η) (c : CensusDB σ η)
    (censusID other : List Byte) :
    (c.Del env censusID).2.censusMap = c.censusMap ∧
    (c.Del env censusID).2.Exists other = c.Exists other ∧
    ((c.Del env censusID).1 = none →
      kvGet (c.Del env censusID).2.db (censusDBreferencePrefix ++ censusID) = none ∧
      (c.Del env censusID).2.pending = c.pending ++ [censusID]) := by
  unfold CensusDB.Del
  split
  · simp
  · split
    · simp [CensusDB.Exists]
    · simp [CensusDB.Exists, kvGet_kvDel_self]

/-- Once the goroutine of `Del` has run, the census is not in `censusMap`. -/
theorem delTask_not_Exists {σ η : Type} (env : CensusEnv σ η) (c : CensusDB σ η)
    (censusID : List Byte) : (c.delTask env censusID).Exists censusID = false := by
  simp [CensusDB.delTask, CensusDB.Exists, kvGet_kvDel_self]

/-- C9 on the code: for every registry and census id, `Exists(id)` answers
right after `Del(id)` what it answered before, since `Del` leaves `censusMap`
to its goroutine. On `registryA`, where the census `[1]` is registered,
`Del([1])` returns no error and has removed the record from the database, yet
`Exists([1])` is still true when `Del` returns, its goroutine being pending;
`Exists([1])` is false only once the goroutine has run. -/
theorem Del_then_Exists_still_true {σ η : Type} (env : CensusEnv σ η) (c : CensusDB σ η)
    (censusID : List Byte) :
    (c.Del env censusID).2.Exists censusID = c.Exists censusID ∧
    registryA.Exists [1] = true ∧
    (registryA.Del simpleEnv [1]).1 = none ∧
    kvGet (registryA.Del simpleEnv [1]).2.db (censusDBreferencePrefix ++ [1]) = none ∧
    (registryA.Del simpleEnv [1]).2.pending = [[1]] ∧
    (registryA.Del simpleEnv [1]).2.Exists [1] = true ∧
    ((registryA.Del simpleEnv [1]).2.runPending simpleEnv).Exists [1] = false := by
  refine ⟨(Del_Exists_unchanged env c censusID censusID).2.1, ?_⟩
  decide

/-- C10 on the code: `ImportAsPublic(badDump)` on an empty registry returns
"root hash does not match after importing dump" and has deleted the record of
the census `[9]` from the database, yet the census `[9]` which it created is
still in `censusMap` when it returns (`Exists` is true), the goroutine of
`Del` being pending; the census is absent only once that goroutine has run. -/
theorem ImportAsPublic_mismatch_still_registered :
    (CensusDB.ImportAsPublic simpleEnv (NewCensusDB [] []) badDump).1
      = some "root hash does not match after importing dump" ∧
    (NewCensusDB [] [] : CensusDB (List SimpleTree) String).Exists [9] = false ∧
    kvGet (CensusDB.ImportAsPublic simpleEnv (NewCensusDB [] []) badDump).2.db
      (censusDBreferencePrefix ++ [9]) = none ∧
    (CensusDB.ImportAsPublic simpleEnv (NewCensusDB [] []) badDump).2.pending = [[9]] ∧
    (CensusDB.ImportAsPublic simpleEnv (NewCensusDB [] []) badDump).2.Exists [9] = true ∧
    ((CensusDB.ImportAsPublic simpleEnv (NewCensusDB [] []) badDump).2.runPending
      simpleEnv).Exists [9] = false := by
  decide

/-- The path of `ImportAsPublic` on which the root of the imported tree is not
the root hash of the dump, for every registry: the error is the mismatch, the
registry returned is the one `Del` returns, and the census is still in
`censusMap` at that point. -/
theorem ImportAsPublic_mismatch {σ η : Type} (env : CensusEnv σ η) (c c1 : CensusDB σ η)
    (data : List Byte) (cdata : CensusDump) (dump rootHash root : List Byte)
    (ref : CensusRef η) (tree : η) (w : σ)
    (hj : env.jsonUnmarshal data = Except.ok cdata)
    (hd : cdata.Data = some dump) (hr : cdata.RootHash = some rootHash)
    (he : c.Exists rootHash = false)
    (hn : c.New env rootHash cdata.Type_ cdata.Indexed true none = (Except.ok ref, c1))
    (ht : ref.tree = some tree)
    (hi : env.importDump tree (env.decompressBytes dump) c1.world = (none, w))
    (hroot : env.root tree w = Except.ok root) (hne : root ≠ rootHash) :
    c.ImportAsPublic env data =
      (some "root hash does not match after importing dump",
        (CensusDB.Del env { c1 with world := w } rootHash).2) ∧
    (c.ImportAsPublic env data).2.Exists rootHash = true := by
  have h1 : c.ImportAsPublic env data =
      (some "root hash does not match after importing dump",
        (CensusDB.Del env { c1 with world := w } rootHash).2) := by
    unfold CensusDB.ImportAsPublic
    rw [hj]
    simp only [hd, hr, he, hn, ht, hi, hroot]
    simp [hne]
  refine ⟨h1, ?_⟩
  rw [h1]
  rw [(Del_Exists_unchanged env _ rootHash rootHash).2.1]
  simp [CensusDB.Exists, New_ok_cached env c c1 rootHash _ _ _ _ ref hn]

/-! ## The pruning of a tally -/

theorem scanRow_lt_iff (pv : ProcessVotes) (m fuel j : Nat) (h : MaxOptions ≤ j + fuel) :
    scanRow pv m fuel j < MaxOptions ↔ ∃ k, j ≤ k ∧ k < MaxOptions ∧ at2 pv m k ≠ 0 := by
  induction fuel generalizing j with
  | zero =>
    simp only [scanRow]
    constructor
    · intro hj; omega
    · rintro ⟨k, h1, h2, -⟩; omega
  | succ fuel ih =>
    unfold scanRow
    by_cases hj : j < MaxOptions
    · rw [if_pos hj]
      by_cases hz : at2 pv m j ≠ 0
      · rw [if_pos hz]
        exact ⟨fun _ => ⟨j, le_refl j, hj, hz⟩, fun _ => hj⟩
      · rw [if_neg hz, ih (j + 1) (by omega)]
        constructor
        · rintro ⟨k, h1, h2, h3⟩; exact ⟨k, by omega, h2, h3⟩
        · rintro ⟨k, h1, h2, h3⟩
          refine ⟨k, ?_, h2, h3⟩
          by_contra hk
          have : k = j := by omega
          subst this
          exact hz h3
    · rw [if_neg hj]
      constructor
      · intro h'; exact absurd h' hj
      · rintro ⟨k, h1, h2, -⟩; omega

theorem findMin_spec (pv : ProcessVotes) (n : Nat) :
    (findMin pv n = -1 ∧ ∀ i, i < n → ∀ j, j < MaxOptions → at2 pv i j = 0) ∨
    (∃ m, m < n ∧ findMin pv n = (m : Int) ∧ (∃ j, j < MaxOptions ∧ at2 pv m j ≠ 0) ∧
      ∀ i, m < i → i < n → ∀ j, j < MaxOptions → at2 pv i j = 0) := by
  induction n with
  | zero => left; exact ⟨rfl, fun i hi => absurd hi (Nat.not_lt_zero i)⟩
  | succ n ih =>
    unfold findMin
    by_cases hs : scanRow pv n MaxOptions 0 < MaxOptions
    · rw [if_pos hs]
      right
      obtain ⟨k, -, hk, hz⟩ := (scanRow_lt_iff pv n MaxOptions 0 (by omega)).1 hs
      exact ⟨n, by omega, rfl, ⟨k, hk, hz⟩, fun i h1 h2 => by omega⟩
    · rw [if_neg hs]
      have hrow : ∀ j, j < MaxOptions → at2 pv n j = 0 := by
        intro j hj
        by_contra hz
        exact hs ((scanRow_lt_iff pv n MaxOptions 0 (by omega)).2 ⟨j, Nat.zero_le j, hj, hz⟩)
      rcases ih with ⟨h1, h2⟩ | ⟨m, hm, h1, h2, h3⟩
      · left
        refine ⟨h1, fun i hi j hj => ?_⟩
        by_cases hin : i = n
        · subst hin; exact hrow j hj
        · exact h2 i (by omega) j hj
      · right
        refine ⟨m, by omega, h1, h2, fun i h4 h5 j hj => ?_⟩
        by_cases hin : i = n
        · subst hin; exact hrow j hj
        · exact h3 i h4 (by omega) j hj

theorem lastNonZero_spec (pv : ProcessVotes) (i2 n : Nat) :
    (lastNonZero pv i2 n = -1 ∧ ∀ j, j < n → at2 pv i2 j = 0) ∨
    (∃ l, l < n ∧ lastNonZero pv i2 n = (l : Int) ∧ at2 pv i2 l ≠ 0 ∧
      ∀ j, l < j → j < n → at2 pv i2 j = 0) := by
  induction n with
  | zero => left; exact ⟨rfl, fun j hj => absurd hj (Nat.not_lt_zero j)⟩
  | succ n ih =>
    unfold lastNonZero
    by_cases hz : at2 pv i2 n ≠ 0
    · rw [if_pos hz]
      right
      exact ⟨n, by omega, rfl, hz, fun j h1 h2 => by omega⟩
    · rw [if_neg hz]
      have hz0 : at2 pv i2 n = 0 := by simpa using hz
      rcases ih with ⟨h1, h2⟩ | ⟨l, hl, h1, h2, h3⟩
      · left
        refine ⟨h1, fun j hj => ?_⟩
        by_cases hjn : j = n
        · subst hjn; exact hz0
        · exact h2 j (by omega)
      · right
        refine ⟨l, by omega, h1, h2, fun j h4 h5 => ?_⟩
        by_cases hjn : j = n
        · subst hjn; exact hz0
        · exact h3 j h4 (by omega)

theorem foldl_replace {α : Type} (f : Nat → List α) (k : Nat) :
    (List.range (k + 1)).foldl (fun _ i => f i) [] = f k := by
  rw [List.range_succ, List.foldl_append]
  rfl

theorem pruneVoteResult_eq (pv : ProcessVotes) :
    pruneVoteResult pv =
      if findMin pv MaxQuestions = -1 then []
      else pruneRows pv (findMin pv MaxQuestions).toNat := by
  unfold pruneVoteResult
  rcases findMin_spec pv MaxQuestions with ⟨h1, -⟩ | ⟨m, -, h1, -, -⟩
  · rw [h1]; rfl
  · rw [h1, if_neg (by omega)]
    have : ((m : Int) + 1).toNat = m + 1 := by omega
    rw [this, foldl_replace]
    simp

theorem pruneRows_length (pv : ProcessVotes) (i : Nat) : (pruneRows pv i).length = i + 1 := by
  simp [pruneRows]

theorem pruneRows_getD (pv : ProcessVotes) (i i2 : Nat) (h : i2 ≤ i) :
    (pruneRows pv i).getD i2 [] =
      copyRow (List.replicate (lastNonZero pv i2 MaxOptions + 1).toNat 0) (pv.getD i2 []) := by
  have hl : i2 < i + 1 := by omega
  unfold pruneRows
  rw [List.getD_eq_getElem?_getD, List.getElem?_map, List.getElem?_range hl]
  rfl

theorem rdropWhile_append_zeros (a b : List Nat) (hb : ∀ x ∈ b, x = 0) :
    (a ++ b).rdropWhile (fun v => v == 0) = a.rdropWhile (fun v => v == 0) := by
  induction b using List.reverseRecOn with
  | nil => simp
  | append_singleton l x ih =>
    rw [← List.append_assoc, List.rdropWhile_concat_pos]
    · exact ih (fun y hy => hb y (by simp [hy]))
    · simp [hb x (by simp)]

theorem getD_take_lt (row : List Nat) (n j : Nat) (h : j < n) :
    (row.take n).getD j 0 = row.getD j 0 := by
  simp [List.getD_eq_getElem?_getD, List.getElem?_take, h]

/-- A row of `MaxOptions` counters copied into `l + 1` counters, `l` being the
index of its last counter that is not zero, or copied into none when all are
zero, is the row trimmed on its trailing zeros. -/
theorem copyRow_trim (pv : ProcessVotes) (i2 : Nat) (hlen : (pv.getD i2 []).length = MaxOptions) :
    copyRow (List.replicate (lastNonZero pv i2 MaxOptions + 1).toNat 0) (pv.getD i2 [])
      = trimRow (pv.getD i2 []) := by
  have hat : ∀ j, (pv.getD i2 []).getD j 0 = at2 pv i2 j := fun j => rfl
  have hsplit : ∀ k, pv.getD i2 [] = (pv.getD i2 []).take k ++ (pv.getD i2 []).drop k :=
    fun k => (List.take_append_drop k _).symm
  rcases lastNonZero_spec pv i2 MaxOptions with ⟨h1, h2⟩ | ⟨l, hl, h1, h2, h3⟩
  · rw [h1]
    have hall : ∀ x ∈ pv.getD i2 [], x = 0 := by
      intro x hx
      obtain ⟨j, hj, rfl⟩ := List.getElem_of_mem hx
      have := h2 j (by omega)
      rw [← hat, List.getD_eq_getElem?_getD, List.getElem?_eq_getElem hj] at this
      simpa using this
    have h0 := rdropWhile_append_zeros [] (pv.getD i2 []) hall
    simp only [List.nil_append, List.rdropWhile_nil] at h0
    rw [trimRow, h0]
    simp [copyRow]
  · rw [h1]
    have hn : ((l : Int) + 1).toNat = l + 1 := by omega
    rw [hn]
    have hc : copyRow (List.replicate (l + 1) 0) (pv.getD i2 []) = (pv.getD i2 []).take (l + 1) := by
      simp only [copyRow, List.length_replicate]
      have : List.drop (pv.getD i2 []).length (List.replicate (l + 1) (0 : Nat)) = [] := by
        apply List.drop_eq_nil_of_le
        simp only [List.length_replicate]; omega
      rw [this, List.append_nil]
    rw [hc]
    unfold trimRow
    conv_rhs => rw [hsplit (l + 1)]
    have hzeros : ∀ x ∈ (pv.getD i2 []).drop (l + 1), x = 0 := by
      intro x hx
      obtain ⟨j, hj, rfl⟩ := List.getElem_of_mem hx
      rw [List.getElem_drop]
      rw [List.length_drop] at hj
      have := h3 (l + 1 + j) (by omega) (by omega)
      rw [← hat, List.getD_eq_getElem?_getD, List.getElem?_eq_getElem (by omega)] at this
      simpa using this
    rw [rdropWhile_append_zeros _ _ hzeros]
    symm
    rw [List.rdropWhile_eq_self_iff]
    intro hne
    have htl : ((pv.getD i2 []).take (l + 1)).length = l + 1 := by
      rw [List.length_take]; omega
    rw [List.getLast_eq_getElem]
    simp only [htl, Nat.add_sub_cancel, List.getElem_take]
    have := h2
    rw [← hat, List.getD_eq_getElem?_getD, List.getElem?_eq_getElem (by omega)] at this
    simpa using this

theorem Is64x64_row (pv : ProcessVotes) (h : Is64x64 pv) (i : Nat) (hi : i < MaxQuestions) :
    (pv.getD i []).length = MaxOptions := by
  obtain ⟨h1, h2⟩ := h
  have hi' : i < pv.length := by omega
  rw [List.getD_eq_getElem?_getD, List.getElem?_eq_getElem hi']
  exact h2 _ (List.getElem_mem hi')

/-- The row that `pruneVoteResult` makes of the row `i2` of a tally. -/
theorem prunedRow_spec (pv : ProcessVotes) (i2 : Nat)
    (hlen : (pv.getD i2 []).length = MaxOptions) (row : List Nat)
    (hrow : row = copyRow (List.replicate (lastNonZero pv i2 MaxOptions + 1).toNat 0)
      (pv.getD i2 [])) :
    row = trimRow (pv.getD i2 []) ∧
    row = (pv.getD i2 []).take row.length ∧
    (∀ j, j < MaxOptions → row.length ≤ j → at2 pv i2 j = 0) ∧
    (row.length ≠ 0 → at2 pv i2 (row.length - 1) ≠ 0) := by
  refine ⟨by rw [hrow]; exact copyRow_trim pv i2 hlen, ?_⟩
  rcases lastNonZero_spec pv i2 MaxOptions with ⟨h1, h2⟩ | ⟨l, hl, h1, h2, h3⟩
  · rw [h1] at hrow
    have : row = [] := by rw [hrow]; simp [copyRow]
    subst this
    exact ⟨by simp, fun j hj _ => h2 j hj, fun h => absurd rfl h⟩
  · rw [h1] at hrow
    have hn : ((l : Int) + 1).toNat = l + 1 := by omega
    rw [hn] at hrow
    have hc : row = (pv.getD i2 []).take (l + 1) := by
      rw [hrow]
      simp only [copyRow, List.length_replicate]
      have : List.drop (pv.getD i2 []).length (List.replicate (l + 1) (0 : Nat)) = [] := by
        apply List.drop_eq_nil_of_le
        simp only [List.length_replicate]; omega
      rw [this, List.append_nil]
    have hlr : row.length = l + 1 := by
      rw [hc, List.length_take]; omega
    refine ⟨by rw [hlr]; exact hc, fun j hj hle => h3 j (by omega) hj, fun _ => ?_⟩
    rw [hlr]
    exact h2

/-- C14: for every 64x64 tally `pv`, `pruneVoteResult(pv)` has no row when every
counter is zero, and has `m + 1` rows when `m` is the highest question with a
counter that is not zero. -/
theorem pruneVoteResult_row_count (pv : ProcessVotes) (h : Is64x64 pv) :
    ((∀ i, i < 64 → ∀ j, j < 64 → at2 pv i j = 0) → pruneVoteResult pv = []) ∧
    (∀ m, m < 64 → (∃ j, j < 64 ∧ at2 pv m j ≠ 0) →
      (∀ i, i < 64 → m < i → ∀ j, j < 64 → at2 pv i j = 0) →
      (pruneVoteResult pv).length = m + 1) := by
  have _h := h
  rw [pruneVoteResult_eq]
  constructor
  · intro hz
    rcases findMin_spec pv MaxQuestions with ⟨h1, -⟩ | ⟨m, hm, -, ⟨j, hj, hne⟩, -⟩
    · rw [if_pos h1]
    · exact absurd (hz m hm j hj) hne
  · intro m hm ⟨j, hj, hne⟩ hz
    rcases findMin_spec pv MaxQuestions with ⟨-, h2⟩ | ⟨m', hm', h1, ⟨j', hj', hne'⟩, h3⟩
    · exact absurd (h2 m hm j hj) hne
    · have hmm : m' = m := by
        rcases Nat.lt_trichotomy m' m with hlt | heq | hgt
        · exact absurd (h3 m hlt hm j hj) hne
        · exact heq
        · exact absurd (hz m' hm' hgt j' hj') hne'
      subst hmm
      rw [h1, if_neg (by omega), pruneRows_length]
      omega

/-- C15: for every 64x64 tally `pv` and every row index `i` of
`pruneVoteResult(pv)`, the row `i` of the result is `pv[i]` trimmed on its own
trailing zeros: it is the start of `pv[i]`, every counter of `pv[i]` from its
length on is zero, and its last counter, if it has one, is not zero. It is a
function of `pv[i]` alone. -/
theorem pruneVoteResult_row (pv : ProcessVotes) (h : Is64x64 pv) (i : Nat)
    (hi : i < (pruneVoteResult pv).length) :
    (pruneVoteResult pv).getD i [] = trimRow (pv.getD i []) ∧
    (pruneVoteResult pv).getD i []
      = (pv.getD i []).take ((pruneVoteResult pv).getD i []).length ∧
    (∀ j, j < 64 → ((pruneVoteResult pv).getD i []).length ≤ j → at2 pv i j = 0) ∧
    (((pruneVoteResult pv).getD i []).length ≠ 0 →
      at2 pv i (((pruneVoteResult pv).getD i []).length - 1) ≠ 0) := by
  rw [pruneVoteResult_eq] at hi ⊢
  rcases findMin_spec pv MaxQuestions with ⟨h1, -⟩ | ⟨m, hm, h1, -, -⟩
  · rw [if_pos h1] at hi
    exact absurd hi (Nat.not_lt_zero i)
  · rw [h1, if_neg (by omega)] at hi ⊢
    have hn : ((m : Int)).toNat = m := by omega
    rw [hn] at hi ⊢
    rw [pruneRows_length] at hi
    have him : i < MaxQuestions := by omega
    exact prunedRow_spec pv i (Is64x64_row pv h i him) _ (pruneRows_getD pv m i (by omega))

set_option maxRecDepth 100000 in
/-- The example of the specification, run: after votes on the questions 0 and 2
only, the result has three rows and the row 1 is empty; a fresh tally gives an
empty result. -/
theorem pruneVoteResult_examples :
    pruneVoteResult tallyQ0Q2 = [[0, 0, 0, 1], [], [0, 0, 0, 0, 0, 1]] ∧
    pruneVoteResult zeroTally = [] := by
  decide

set_option maxRecDepth 100000 in
/-- Witness of C14 on `tallyQ0Q2`, whose highest question with a vote is 2, and
on `zeroTally`. -/
theorem pruneVoteResult_row_count_witness :
    (pruneVoteResult tallyQ0Q2).length = 2 + 1 ∧ pruneVoteResult zeroTally = [] :=
  ⟨(pruneVoteResult_row_count tallyQ0Q2 (by unfold Is64x64; decide)).2 2 (by decide)
      ⟨5, by decide, by decide⟩ (by decide),
    (pruneVoteResult_row_count zeroTally (by unfold Is64x64; decide)).1 (by decide)⟩

set_option maxRecDepth 100000 in
/-- Witness of C15 on `tallyQ0Q2`: the row 1 of the result is the row 1 of the
tally trimmed, which is empty. -/
theorem pruneVoteResult_row_witness :
    (pruneVoteResult tallyQ0Q2).getD 1 [] = trimRow (tallyQ0Q2.getD 1 []) ∧
    trimRow (tallyQ0Q2.getD 1 []) = [] :=
  ⟨(pruneVoteResult_row tallyQ0Q2 (by unfold Is64x64; decide) 1 (by decide)).1, by decide⟩

/-! ## The tally of the votes -/

theorem kvGet_kvSet_ne {β : Type} (m : Bindings β) (k k1 : List Byte) (v : β) (h : k1 ≠ k) :
    kvGet (kvSet m k v) k1 = kvGet m k1 := by
  have hk : (k == k1) = false := by simpa using fun h' => h h'.symm
  simp only [kvGet, kvSet, List.find?_cons, hk]
  congr 1
  induction m with
  | nil => rfl
  | cons e m ih =>
    simp only [kvDel, List.filter_cons] at ih ⊢
    by_cases he : e.1 = k
    · have h1 : (e.1 != k) = false := by simp [he]
      have h2 : (e.1 == k1) = false := by simpa [he] using fun h' => h h'.symm
      simp only [h1, List.find?_cons, h2]
      exact ih
    · have h1 : (e.1 != k) = true := by simpa using he
      simp only [h1, if_true, List.find?_cons]
      cases e.1 == k1 with
      | true => rfl
      | false => exact ih

theorem at2_set (pv : ProcessVotes) (q o v : Nat) (row : List Nat) (hq : pv[q]? = some row)
    (ho : o < row.length) (q1 o1 : Nat) :
    at2 (pv.set q (row.set o v)) q1 o1 = if q1 = q ∧ o1 = o then v else at2 pv q1 o1 := by
  have hql : q < pv.length := by
    rcases Nat.lt_or_ge q pv.length with h | h
    · exact h
    · rw [List.getElem?_eq_none h] at hq; exact Option.noConfusion hq
  unfold at2
  simp only [List.getD_eq_getElem?_getD, List.getElem?_set]
  by_cases h1 : q = q1
  · subst h1
    simp only [hql, if_true, true_and, Option.getD_some, List.getElem?_set, hq]
    by_cases h2 : o = o1
    · subst h2; simp [ho]
    · have : ¬ o1 = o := fun h => h2 h.symm
      simp [h2, this]
  · have : ¬ q1 = q := fun h => h1 h.symm
    simp [h1, this]

/-- What `pv[question][opt]++` does when it does not panic. -/
theorem incrCounter_some (pv pv1 : ProcessVotes) (question : Nat) (opt : Int)
    (h : incrCounter pv question opt = some pv1) :
    0 ≤ opt ∧ question < pv.length ∧ opt.toNat < (pv.getD question []).length ∧
    pv1.length = pv.length ∧
    (∀ q1, (pv1.getD q1 []).length = (pv.getD q1 []).length) ∧
    ∀ q1 o1, at2 pv1 q1 o1 =
      if q1 = question ∧ o1 = opt.toNat then (at2 pv q1 o1 + 1) % 2 ^ 32 else at2 pv q1 o1 := by
  unfold incrCounter at h
  split at h
  · exact Option.noConfusion h
  · rename_i hneg
    split at h
    · exact Option.noConfusion h
    · rename_i row hrow
      split at h
      · exact Option.noConfusion h
      · rename_i v hv
        simp only [Option.some.injEq] at h
        subst h
        have hql : question < pv.length := by
          rcases Nat.lt_or_ge question pv.length with h | h
          · exact h
          · rw [List.getElem?_eq_none h] at hrow; exact Option.noConfusion hrow
        have hol : opt.toNat < row.length := by
          rcases Nat.lt_or_ge opt.toNat row.length with h | h
          · exact h
          · rw [List.getElem?_eq_none h] at hv; exact Option.noConfusion hv
        have hgd : pv.getD question [] = row := by
          rw [List.getD_eq_getElem?_getD, hrow]; rfl
        have hv' : at2 pv question opt.toNat = v := by
          unfold at2
          rw [hgd, List.getD_eq_getElem?_getD, hv]; rfl
        refine ⟨by omega, hql, by rw [hgd]; exact hol, by simp, ?_, ?_⟩
        · intro q1
          simp only [List.getD_eq_getElem?_getD, List.getElem?_set]
          by_cases h1 : question = q1
          · subst h1; simp [hql, hrow]
          · simp [h1]
        · intro q1 o1
          rw [at2_set pv question opt.toNat _ row hrow hol]
          by_cases hc : q1 = question ∧ o1 = opt.toNat
          · rw [if_pos hc, if_pos hc, hc.1, hc.2, hv']
          · rw [if_neg hc, if_neg hc]

/-- The statement `pv[question][opt]++` does not panic when both indices are in
range. -/
theorem incrCounter_in_range (pv : ProcessVotes) (question : Nat) (opt : Int)
    (h0 : 0 ≤ opt) (hq : question < pv.length)
    (ho : opt.toNat < (pv.getD question []).length) :
    ∃ pv1, incrCounter pv question opt = some pv1 := by
  unfold incrCounter
  rw [if_neg (by omega), List.getElem?_eq_getElem hq]
  have hgd : pv.getD question [] = pv[question] := by
    rw [List.getD_eq_getElem?_getD, List.getElem?_eq_getElem hq]; rfl
  rw [hgd] at ho
  simp only [List.getElem?_eq_getElem ho]
  exact ⟨_, rfl⟩

/-- The statement `pv[question][opt]++` panics when the option is not below the
length of the row. -/
theorem incrCounter_out_of_range (pv : ProcessVotes) (question : Nat) (opt : Int)
    (ho : (pv.getD question []).length ≤ opt.toNat) :
    incrCounter pv question opt = none := by
  unfold incrCounter
  split
  · rfl
  · split
    · rfl
    · rename_i row hrow
      have hgd : pv.getD question [] = row := by
        rw [List.getD_eq_getElem?_getD, hrow]; rfl
      rw [hgd] at ho
      rw [List.getElem?_eq_none ho]

theorem Is64x64_of_lengths (pv pv1 : ProcessVotes) (h : Is64x64 pv)
    (hl : pv1.length = pv.length)
    (hr : ∀ q1, (pv1.getD q1 []).length = (pv.getD q1 []).length) : Is64x64 pv1 := by
  refine ⟨by rw [hl]; exact h.1, fun row hrow => ?_⟩
  obtain ⟨i, hi, rfl⟩ := List.getElem_of_mem hrow
  have h1 : pv1.getD i [] = pv1[i] := by
    rw [List.getD_eq_getElem?_getD, List.getElem?_eq_getElem hi]; rfl
  rw [← h1, hr i]
  exact Is64x64_row pv h i (by rw [← h.1, ← hl]; exact hi)

/-- The loop of `addVote` on a 64x64 tally, for votes whose options are all
either in `0..63` or above 64: it does not panic, the tally stays 64x64, and
the counter `[q][o]` is incremented, modulo `2 ^ 32`, exactly when `o` is the
option of the question `q`. -/
theorem countVotes_spec (votes : List Int) (pv : ProcessVotes) (q0 : Nat) (h : Is64x64 pv)
    (hlen : q0 + votes.length ≤ 64)
    (hopt : ∀ opt ∈ votes, (0 ≤ opt ∧ opt < 64) ∨ 64 < opt) :
    ∃ pv1, countVotes pv q0 votes = some pv1 ∧ Is64x64 pv1 ∧
      ∀ q o, q < 64 → o < 64 → at2 pv1 q o =
        if q0 ≤ q ∧ votes[q - q0]? = some (o : Int) then (at2 pv q o + 1) % 2 ^ 32
        else at2 pv q o := by
  induction votes generalizing pv q0 with
  | nil => exact ⟨pv, rfl, h, fun q o _ _ => by simp⟩
  | cons opt rest ih =>
    simp only [List.length_cons] at hlen
    have hrest : ∀ o ∈ rest, (0 ≤ o ∧ o < 64) ∨ 64 < o :=
      fun o ho => hopt o (List.mem_cons_of_mem _ ho)
    unfold countVotes
    rcases hopt opt (List.mem_cons_self _ _) with ⟨h0, h64⟩ | hgt
    · rw [if_neg (by unfold MaxOptions; omega)]
      have hq0 : q0 < pv.length := by rw [h.1]; unfold MaxQuestions; omega
      have hrow := Is64x64_row pv h q0 (by unfold MaxQuestions; omega)
      obtain ⟨pv1, hpv1⟩ := incrCounter_in_range pv q0 opt h0 hq0
        (by rw [hrow]; unfold MaxOptions; omega)
      obtain ⟨-, -, -, hl, hr, hat⟩ := incrCounter_some pv pv1 q0 opt hpv1
      rw [hpv1]
      obtain ⟨pv2, hpv2, h2, hat2⟩ := ih pv1 (q0 + 1) (Is64x64_of_lengths pv pv1 h hl hr)
        (by omega) hrest
      refine ⟨pv2, hpv2, h2, fun q o hq ho => ?_⟩
      rw [hat2 q o hq ho, hat q o]
      by_cases hqq : q = q0
      · subst hqq
        have h1 : ¬ (q + 1 ≤ q ∧ rest[q - (q + 1)]? = some (o : Int)) := by omega
        rw [if_neg h1]
        simp only [Nat.sub_self, List.getElem?_cons_zero, Option.some.injEq, le_refl, true_and]
        by_cases hoo : o = opt.toNat
        · rw [if_pos hoo, if_pos (by omega)]
        · rw [if_neg hoo, if_neg (by omega)]
      · have h1 : ¬ (q = q0 ∧ o = opt.toNat) := fun hc => hqq hc.1
        rw [if_neg h1]
        by_cases hle : q0 + 1 ≤ q
        · have hsub : q - q0 = (q - (q0 + 1)) + 1 := by omega
          rw [hsub, List.getElem?_cons_succ]
          by_cases hv : rest[q - (q0 + 1)]? = some (o : Int)
          · rw [if_pos ⟨hle, hv⟩, if_pos ⟨by omega, hv⟩]
          · rw [if_neg (fun hc => hv hc.2), if_neg (fun hc => hv hc.2)]
        · rw [if_neg (fun hc => hle hc.1), if_neg (fun hc => by omega)]
    · rw [if_pos (by unfold MaxOptions; omega)]
      obtain ⟨pv2, hpv2, h2, hat2⟩ := ih pv (q0 + 1) h (by omega) hrest
      refine ⟨pv2, hpv2, h2, fun q o hq ho => ?_⟩
      rw [hat2 q o hq ho]
      by_cases hqq : q = q0
      · subst hqq
        have h1 : ¬ (q + 1 ≤ q ∧ rest[q - (q + 1)]? = some (o : Int)) := by omega
        rw [if_neg h1]
        simp only [Nat.sub_self, List.getElem?_cons_zero, Option.some.injEq, le_refl, true_and]
        rw [if_neg (by omega)]
      · by_cases hle : q0 + 1 ≤ q
        · have hsub : q - q0 = (q - (q0 + 1)) + 1 := by omega
          rw [hsub, List.getElem?_cons_succ]
          by_cases hv : rest[q - (q0 + 1)]? = some (o : Int)
          · rw [if_pos ⟨hle, hv⟩, if_pos ⟨by omega, hv⟩]
          · rw [if_neg (fun hc => hv hc.2), if_neg (fun hc => hv hc.2)]
        · rw [if_neg (fun hc => hle hc.1), if_neg (fun hc => by omega)]

/-- The loop of `addVote`, when it does not panic: a counter of a question before
`q0` is left alone, and every counter is left alone or incremented once. -/
theorem countVotes_step (votes : List Int) (pv pv1 : ProcessVotes) (q0 : Nat)
    (h : countVotes pv q0 votes = some pv1) (q o : Nat) :
    (q < q0 → at2 pv1 q o = at2 pv q o) ∧
    (at2 pv1 q o = at2 pv q o ∨ at2 pv1 q o = (at2 pv q o + 1) % 2 ^ 32) := by
  induction votes generalizing pv q0 with
  | nil =>
    simp only [countVotes, Option.some.injEq] at h
    subst h
    exact ⟨fun _ => rfl, Or.inl rfl⟩
  | cons opt rest ih =>
    unfold countVotes at h
    split at h
    · obtain ⟨h1, h2⟩ := ih pv (q0 + 1) h
      exact ⟨fun hq => h1 (by omega), h2⟩
    · cases hi : incrCounter pv q0 opt with
      | none => rw [hi] at h; exact Option.noConfusion h
      | some pv2 =>
        rw [hi] at h
        obtain ⟨-, -, -, -, -, hat⟩ := incrCounter_some pv pv2 q0 opt hi
        obtain ⟨h1, h2⟩ := ih pv2 (q0 + 1) h
        constructor
        · intro hq
          rw [h1 (by omega), hat q o, if_neg (by omega)]
        · by_cases hqq : q = q0
          · rw [h1 (by omega), hat q o]
            by_cases hc : q = q0 ∧ o = opt.toNat
            · rw [if_pos hc]; exact Or.inr rfl
            · rw [if_neg hc]; exact Or.inl rfl
          · have hc : ¬ (q = q0 ∧ o = opt.toNat) := fun hc => hqq hc.1
            rw [hat q o, if_neg hc] at h2
            exact h2

/-- With a vote whose option is 64, or negative, on a 64x64 tally, the loop of
`addVote` indexes a row of 64 counters out of range: the guard
`opt > MaxOptions` lets 64 through and has no lower bound. -/
theorem countVotes_panics (pv : ProcessVotes) (h : Is64x64 pv) (opt : Int)
    (hopt : opt = 64 ∨ opt < 0) (rest : List Int) :
    countVotes pv 0 (opt :: rest) = none := by
  unfold countVotes
  have hrow := Is64x64_row pv h 0 (by decide)
  rcases hopt with h64 | hneg
  · rw [if_neg (by unfold MaxOptions; omega),
      incrCounter_out_of_range pv 0 opt (by rw [hrow]; unfold MaxOptions; omega)]
  · rw [if_neg (by unfold MaxOptions; omega)]
    unfold incrCounter
    rw [if_pos hneg]

/-- What `Get` returns for a stored key when the read does not fail. -/
theorem Get_ok (env : VoteEnv) (s : Scrutinizer) (key : List Byte) (pv : ProcessVotes)
    (hget : kvGet s.Storage key = some pv) (herr : env.storageGetErr key = none) :
    s.Get env key = Except.ok pv := by
  unfold Scrutinizer.Get
  rw [herr, hget]

/-- What `Get` returns when the read fails or the key is absent: an error. -/
theorem Get_error (env : VoteEnv) (s : Scrutinizer) (key : List Byte)
    (h : env.storageGetErr key ≠ none ∨ kvGet s.Storage key = none) :
    ∃ err, s.Get env key = Except.error err := by
  unfold Scrutinizer.Get
  cases he : env.storageGetErr key with
  | some err => exact ⟨err, rfl⟩
  | none =>
    rcases h with h | h
    · exact absurd he h
    · rw [h]; exact ⟨_, rfl⟩

/-- After `addVote` of a vote that is decoded, the storage is as it was or holds,
under the id of the process, the tally that the loop of `addVote` makes of the
stored one. -/
theorem addVote_cases (env : VoteEnv) (s s1 : Scrutinizer) (envelope : Vote)
    (h : addVote env s envelope = some s1) :
    s1 = s ∨ ∃ (vote : VotePackage) (pv pv1 : ProcessVotes),
      kvGet s.Storage envelope.ProcessID = some pv ∧
      countVotes pv 0 vote.Votes = some pv1 ∧
      s1 = { s with Storage := kvSet s.Storage envelope.ProcessID pv1 } := by
  unfold addVote at h
  cases hb : env.base64Decode envelope.VotePackage with
  | error e => rw [hb] at h; exact Or.inl (Option.some.inj h).symm
  | ok rawVote =>
    rw [hb] at h
    simp only at h
    cases hj : env.jsonUnmarshal rawVote with
    | error e => rw [hj] at h; exact Or.inl (Option.some.inj h).symm
    | ok vote =>
      rw [hj] at h
      simp only at h
      by_cases hl : vote.Votes.length > MaxQuestions
      · rw [if_pos hl] at h; exact Or.inl (Option.some.inj h).symm
      · rw [if_neg hl] at h
        cases hg : s.Get env envelope.ProcessID with
        | error e => rw [hg] at h; exact Or.inl (Option.some.inj h).symm
        | ok pv =>
          rw [hg] at h
          simp only at h
          have hkv : kvGet s.Storage envelope.ProcessID = some pv := by
            unfold Scrutinizer.Get at hg
            cases he : env.storageGetErr envelope.ProcessID with
            | some e => rw [he] at hg; exact Except.noConfusion hg
            | none =>
              rw [he] at hg
              simp only at hg
              cases hk : kvGet s.Storage envelope.ProcessID with
              | none => rw [hk] at hg; exact Except.noConfusion hg
              | some pv0 => rw [hk] at hg; rw [Except.ok.inj hg]
          cases hu : env.unmarshalErr pv with
          | some e => rw [hu] at h; exact Or.inl (Option.some.inj h).symm
          | none =>
            rw [hu] at h
            simp only at h
            cases hc : countVotes pv 0 vote.Votes with
            | none => rw [hc] at h; exact Option.noConfusion h
            | some pv1 =>
              rw [hc] at h
              simp only at h
              cases hm : env.marshalErr pv1 with
              | some e => rw [hm] at h; exact Or.inl (Option.some.inj h).symm
              | none =>
                rw [hm] at h
                simp only at h
                cases hput : env.storagePutErr envelope.ProcessID with
                | some e => rw [hput] at h; exact Or.inl (Option.some.inj h).symm
                | none =>
                  rw [hput] at h
                  exact Or.inr ⟨vote, pv, pv1, hkv, hc, (Option.some.inj h).symm⟩

set_option maxRecDepth 100000 in
/-- C12, as stated, fails. A vote whose option for the question 0 is 64 does not
exceed `MaxOptions`, yet no counter is incremented: `addVote` panics on
`pv[0][64]`. A counter that holds `4294967295` is not incremented by one by
a vote for it: it becomes 0. And on a storage whose writes fail, a vote of one
question for a process that has a tally leaves the storage as it was. -/
theorem addVote_effect_counterexample :
    addVote (decodesTo [64]) (addProcess (decodesTo [64]) freshScrutinizer [1])
      { ProcessID := [1], VotePackage := "" } = none ∧
    at2 maxedTally 0 0 = 4294967295 ∧
    ((addVote (decodesTo [0])
        { Storage := [([1], maxedTally)], countTotalTransactions := 0, newTxPool := [] }
        { ProcessID := [1], VotePackage := "" }).bind
      (fun s => kvGet s.Storage [1])).map (fun pv => at2 pv 0 0) = some 0 ∧
    addVote (writeFails [3])
        { Storage := [([1], zeroTally)], countTotalTransactions := 0, newTxPool := [] }
        { ProcessID := [1], VotePackage := "" }
      = some { Storage := [([1], zeroTally)], countTotalTransactions := 0, newTxPool := [] } := by
  decide

/-- C12, amended: if the vote has more than 64 questions or the process has no
stored tally, the scrutinizer is unchanged; it is unchanged too when the read
of the stored tally or its decoding returns an error. Otherwise, on a stored
64x64 tally and a vote whose options are all either in `0..63` or above 64,
`addVote` makes a 64x64 tally in which the counter `[q][o]` is the former one
plus one modulo `2 ^ 32` when `o` is the option of the question `q`, and the
former one otherwise (so a question whose option is above 64 is skipped and
the others are counted); when the encoding of that tally or its write returns
an error the scrutinizer is unchanged, otherwise that tally is stored for the
process and the tallies of the other processes are unchanged. -/
theorem addVote_effect (env : VoteEnv) (s : Scrutinizer) (envelope : Vote)
    (rawVote : List Byte) (vote : VotePackage)
    (hb : env.base64Decode envelope.VotePackage = Except.ok rawVote)
    (hj : env.jsonUnmarshal rawVote = Except.ok vote) :
    (64 < vote.Votes.length ∨ kvGet s.Storage envelope.ProcessID = none →
      addVote env s envelope = some s) ∧
    (∀ pv, kvGet s.Storage envelope.ProcessID = some pv →
      env.storageGetErr envelope.ProcessID ≠ none ∨ env.unmarshalErr pv ≠ none →
      addVote env s envelope = some s) ∧
    (∀ pv, vote.Votes.length ≤ 64 → kvGet s.Storage envelope.ProcessID = some pv →
      Is64x64 pv → (∀ opt ∈ vote.Votes, (0 ≤ opt ∧ opt < 64) ∨ 64 < opt) →
      env.storageGetErr envelope.ProcessID = none → env.unmarshalErr pv = none →
      ∃ pv1, Is64x64 pv1 ∧
        (∀ q o, q < 64 → o < 64 → at2 pv1 q o =
          if vote.Votes[q]? = some (o : Int) then (at2 pv q o + 1) % 2 ^ 32
          else at2 pv q o) ∧
        (env.marshalErr pv1 ≠ none ∨ env.storagePutErr envelope.ProcessID ≠ none →
          addVote env s envelope = some s) ∧
        (env.marshalErr pv1 = none → env.storagePutErr envelope.ProcessID = none →
          ∃ s1, addVote env s envelope = some s1 ∧
            kvGet s1.Storage envelope.ProcessID = some pv1 ∧
            (∀ other, other ≠ envelope.ProcessID →
              kvGet s1.Storage other = kvGet s.Storage other))) := by
  refine ⟨?_, ?_, ?_⟩
  · intro h
    unfold addVote
    simp only [hb, hj]
    rcases h with h | h
    · rw [if_pos (by unfold MaxQuestions; omega)]
    · split
      · rfl
      · obtain ⟨err, he⟩ := Get_error env s envelope.ProcessID (Or.inr h)
        rw [he]
  · intro pv hget h
    unfold addVote
    simp only [hb, hj]
    split
    · rfl
    · rcases h with h | h
      · obtain ⟨err, he⟩ := Get_error env s envelope.ProcessID (Or.inl h)
        rw [he]
      · cases hg : env.storageGetErr envelope.ProcessID with
        | some err =>
          obtain ⟨err1, he⟩ := Get_error env s envelope.ProcessID
            (Or.inl (by rw [hg]; exact Option.some_ne_none _))
          rw [he]
        | none =>
          rw [Get_ok env s _ pv hget hg]
          cases hu : env.unmarshalErr pv with
          | none => exact absurd hu h
          | some err => simp only [hu]
  · intro pv hlen hget h64 hopt hg hu
    obtain ⟨pv1, hpv1, h1, hat⟩ := countVotes_spec vote.Votes pv 0 h64 (by omega) hopt
    have hlen1 : ¬ vote.Votes.length > MaxQuestions := by unfold MaxQuestions; omega
    refine ⟨pv1, h1, ?_, ?_, ?_⟩
    · intro q o hq ho
      rw [hat q o hq ho]
      simp
    · intro h
      unfold addVote
      simp only [hb, hj]
      rw [if_neg hlen1, Get_ok env s _ pv hget hg]
      cases hm : env.marshalErr pv1 with
      | some err => simp only [hu, hpv1, hm]
      | none =>
        rcases h with h | h
        · exact absurd hm h
        · cases hput : env.storagePutErr envelope.ProcessID with
          | some err => simp only [hu, hpv1, hm, hput]
          | none => exact absurd hput h
    · intro hm hput
      refine ⟨{ s with Storage := kvSet s.Storage envelope.ProcessID pv1 }, ?_,
        kvGet_kvSet_self _ _ _, fun other ho => kvGet_kvSet_ne _ _ _ _ ho⟩
      unfold addVote
      simp only [hb, hj]
      rw [if_neg hlen1, Get_ok env s _ pv hget hg]
      simp only [hu, hpv1, hm, hput]

set_option maxRecDepth 100000 in
/-- Witness of C12 amended: the vote `[3, 65, 5]` on a fresh tally, with a
storage and a codec that return no error. -/
theorem addVote_effect_witness :
    ∃ pv1, Is64x64 pv1 ∧
      (∀ q o, q < 64 → o < 64 → at2 pv1 q o =
        if ([3, 65, 5] : List Int)[q]? = some (o : Int) then (at2 zeroTally q o + 1) % 2 ^ 32
        else at2 zeroTally q o) ∧
      ((decodesTo [3, 65, 5]).marshalErr pv1 ≠ none ∨
          (decodesTo [3, 65, 5]).storagePutErr [1] ≠ none →
        addVote (decodesTo [3, 65, 5]) (addProcess (decodesTo []) freshScrutinizer [1])
            { ProcessID := [1], VotePackage := "" }
          = some (addProcess (decodesTo []) freshScrutinizer [1])) ∧
      ((decodesTo [3, 65, 5]).marshalErr pv1 = none →
        (decodesTo [3, 65, 5]).storagePutErr [1] = none →
        ∃ s1, addVote (decodesTo [3, 65, 5]) (addProcess (decodesTo []) freshScrutinizer [1])
            { ProcessID := [1], VotePackage := "" } = some s1 ∧
          kvGet s1.Storage [1] = some pv1 ∧
          (∀ other, other ≠ [1] → kvGet s1.Storage other
            = kvGet (addProcess (decodesTo []) freshScrutinizer [1]).Storage other)) :=
  (addVote_effect (decodesTo [3, 65, 5]) (addProcess (decodesTo []) freshScrutinizer [1])
    { ProcessID := [1], VotePackage := "" } [] { Votes := [3, 65, 5] } rfl rfl).2.2
    zeroTally (by decide) (by decide) (by unfold Is64x64; decide) (by decide) rfl rfl

set_option maxRecDepth 100000 in
/-- C13, as stated, fails: the counter `[0][0]` of the process `[1]` holds
`4294967295` before a vote for it and 0 after. And on a storage whose reads
fail, `addProcess` of the process `[1]`, which has a tally with a counter at
1, puts a tally of zeros in its place. -/
theorem tally_counter_wraps :
    (kvGet ({ Storage := [([1], maxedTally)], countTotalTransactions := 0,
              newTxPool := [] } : Scrutinizer).Storage [1]).map (fun pv => at2 pv 0 0)
      = some 4294967295 ∧
    ((addVote (decodesTo [0])
        { Storage := [([1], maxedTally)], countTotalTransactions := 0, newTxPool := [] }
        { ProcessID := [1], VotePackage := "" }).bind
      (fun s => kvGet s.Storage [1])).map (fun pv => at2 pv 0 0) = some 0 ∧
    ¬ (4294967295 ≤ 0) ∧
    at2 tallyQ0Q2 0 3 = 1 ∧
    (kvGet (addProcess (readFails [])
        { Storage := [([1], tallyQ0Q2)], countTotalTransactions := 0, newTxPool := [] }
        [1]).Storage [1]).map (fun pv => at2 pv 0 3) = some 0 := by
  decide

/-- C13, amended: for every process that has a tally `pv`. After `addProcess` of
another id the tally is `pv`; after `addProcess` of its own id the tally is
`pv` when the read of the storage returns no error, or when the encoding or
the write of a fresh tally returns one, and it is the tally of zeros when the
read returns an error and the encoding and the write return none. After an
`addVote` that returns, the process has a tally in which every counter is the
former one or the former one plus one modulo `2 ^ 32`; so a counter is greater
than or equal to its value before the vote unless it held `2 ^ 32 - 1` and
was incremented. -/
theorem tally_counters_step (env : VoteEnv) (s : Scrutinizer) (pid : List Byte)
    (pv : ProcessVotes) (hget : kvGet s.Storage pid = some pv) :
    (∀ newPid, newPid ≠ pid → kvGet (addProcess env s newPid).Storage pid = some pv) ∧
    (env.storageGetErr pid = none ∨ env.marshalErr zeroTally ≠ none ∨
        env.storagePutErr pid ≠ none →
      kvGet (addProcess env s pid).Storage pid = some pv) ∧
    (env.storageGetErr pid ≠ none → env.marshalErr zeroTally = none →
        env.storagePutErr pid = none →
      kvGet (addProcess env s pid).Storage pid = some zeroTally) ∧
    (∀ envelope s1, addVote env s envelope = some s1 →
      ∃ pv1, kvGet s1.Storage pid = some pv1 ∧
        ∀ q o, (at2 pv1 q o = at2 pv q o ∨ at2 pv1 q o = (at2 pv q o + 1) % 2 ^ 32) ∧
          (at2 pv q o < 2 ^ 32 - 1 → at2 pv q o ≤ at2 pv1 q o)) := by
  have hadd : ∀ newPid, addProcess env s newPid = s ∨
      (addProcess env s newPid = { s with Storage := kvSet s.Storage newPid zeroTally } ∧
        (env.storageGetErr newPid ≠ none ∨ kvGet s.Storage newPid = none) ∧
        env.marshalErr zeroTally = none ∧ env.storagePutErr newPid = none) := by
    intro newPid
    cases hg : s.Get env newPid with
    | ok pv0 =>
      left
      unfold addProcess
      rw [hg]
    | error err =>
      have hfault : env.storageGetErr newPid ≠ none ∨ kvGet s.Storage newPid = none := by
        unfold Scrutinizer.Get at hg
        cases he : env.storageGetErr newPid with
        | some e => exact Or.inl (Option.some_ne_none _)
        | none =>
          rw [he] at hg
          simp only at hg
          cases hk : kvGet s.Storage newPid with
          | none => exact Or.inr rfl
          | some pv0 => rw [hk] at hg; exact Except.noConfusion hg
      cases hm : env.marshalErr zeroTally with
      | some e =>
        left
        have hm1 : env.marshalErr (List.replicate MaxQuestions (List.replicate MaxOptions 0))
            = some e := hm
        unfold addProcess
        rw [hg]
        simp only [hm1]
      | none =>
        have hm1 : env.marshalErr (List.replicate MaxQuestions (List.replicate MaxOptions 0))
            = none := hm
        cases hput : env.storagePutErr newPid with
        | some e =>
          left
          unfold addProcess
          rw [hg]
          simp only [hm1, hput]
        | none =>
          right
          refine ⟨?_, hfault, rfl, rfl⟩
          unfold addProcess
          rw [hg]
          simp only [hm1, hput]
          rfl
  refine ⟨?_, ?_, ?_, ?_⟩
  · intro newPid hne
    rcases hadd newPid with h | ⟨h, -⟩
    · rw [h]; exact hget
    · rw [h]
      simp only
      rw [kvGet_kvSet_ne _ _ _ _ (Ne.symm hne)]
      exact hget
  · intro h
    rcases hadd pid with h1 | ⟨-, hf, hm, hput⟩
    · rw [h1]; exact hget
    · rcases h with h | h | h
      · rcases hf with hf | hf
        · exact absurd h hf
        · rw [hget] at hf; exact Option.noConfusion hf
      · exact absurd hm h
      · exact absurd hput h
  · intro hg hm hput
    obtain ⟨err, he⟩ := Get_error env s pid (Or.inl hg)
    have hm1 : env.marshalErr (List.replicate MaxQuestions (List.replicate MaxOptions 0))
        = none := hm
    have hrun : addProcess env s pid
        = { s with Storage := kvSet s.Storage pid zeroTally } := by
      unfold addProcess
      rw [he]
      simp only [hm1, hput]
      rfl
    rw [hrun]
    exact kvGet_kvSet_self _ _ _
  · intro envelope s1 h
    have hmono : ∀ (a b : Nat), (b = a ∨ b = (a + 1) % 2 ^ 32) →
        (a < 2 ^ 32 - 1 → a ≤ b) := by
      intro a b hab ha
      rcases hab with h1 | h1
      · omega
      · rw [h1, Nat.mod_eq_of_lt (by omega)]; omega
    rcases addVote_cases env s s1 envelope h with hs | ⟨vote, pv0, pv1, hpv0, hpv1, hs⟩
    · subst hs
      exact ⟨pv, hget, fun q o => ⟨Or.inl rfl, fun _ => le_refl _⟩⟩
    · subst hs
      by_cases hp : pid = envelope.ProcessID
      · subst hp
        rw [hget] at hpv0
        have hpv : pv0 = pv := (Option.some.inj hpv0).symm
        subst hpv
        refine ⟨pv1, kvGet_kvSet_self _ _ _, fun q o => ?_⟩
        have := (countVotes_step vote.Votes pv0 pv1 0 hpv1 q o).2
        exact ⟨this, hmono _ _ this⟩
      · refine ⟨pv, ?_, fun q o => ⟨Or.inl rfl, fun _ => le_refl _⟩⟩
        simp only
        rw [kvGet_kvSet_ne _ _ _ _ hp]
        exact hget

set_option maxRecDepth 100000 in
/-- Witness of C13 amended: the process `[1]` with a fresh tally, on a storage
and a codec that return no error. -/
theorem tally_counters_step_witness :
    (∀ newPid, newPid ≠ [1] →
      kvGet (addProcess (decodesTo [3, 65, 5])
        (addProcess (decodesTo []) freshScrutinizer [1]) newPid).Storage [1]
        = some zeroTally) ∧
    ((decodesTo [3, 65, 5]).storageGetErr [1] = none ∨
        (decodesTo [3, 65, 5]).marshalErr zeroTally ≠ none ∨
        (decodesTo [3, 65, 5]).storagePutErr [1] ≠ none →
      kvGet (addProcess (decodesTo [3, 65, 5])
        (addProcess (decodesTo []) freshScrutinizer [1]) [1]).Storage [1] = some zeroTally) ∧
    ((decodesTo [3, 65, 5]).storageGetErr [1] ≠ none →
        (decodesTo [3, 65, 5]).marshalErr zeroTally = none →
        (decodesTo [3, 65, 5]).storagePutErr [1] = none →
      kvGet (addProcess (decodesTo [3, 65, 5])
        (addProcess (decodesTo []) freshScrutinizer [1]) [1]).Storage [1] = some zeroTally) ∧
    (∀ envelope s1, addVote (decodesTo [3, 65, 5])
        (addProcess (decodesTo []) freshScrutinizer [1]) envelope = some s1 →
      ∃ pv1, kvGet s1.Storage [1] = some pv1 ∧
        ∀ q o, (at2 pv1 q o = at2 zeroTally q o ∨
            at2 pv1 q o = (at2 zeroTally q o + 1) % 2 ^ 32) ∧
          (at2 zeroTally q o < 2 ^ 32 - 1 → at2 zeroTally q o ≤ at2 pv1 q o)) :=
  tally_counters_step (decodesTo [3, 65, 5]) (addProcess (decodesTo []) freshScrutinizer [1])
    [1] zeroTally (by decide)

set_option maxRecDepth 100000 in
/-- C20 on the code: on a fresh 64x64 tally, a vote of one question whose option
is 64 passes the guard `opt > MaxOptions` and `addVote` panics on `pv[0][64]`;
so does a vote whose option is `-1`, on `pv[0][-1]`; an option of 65 is
skipped and an option of 63 is counted. -/
theorem addVote_index_out_of_range :
    Is64x64 zeroTally ∧
    kvGet (addProcess (decodesTo []) freshScrutinizer [1]).Storage [1] = some zeroTally ∧
    addVote (decodesTo [64]) (addProcess (decodesTo []) freshScrutinizer [1])
      { ProcessID := [1], VotePackage := "" } = none ∧
    addVote (decodesTo [-1]) (addProcess (decodesTo []) freshScrutinizer [1])
      { ProcessID := [1], VotePackage := "" } = none ∧
    addVote (decodesTo [65]) (addProcess (decodesTo []) freshScrutinizer [1])
      { ProcessID := [1], VotePackage := "" } ≠ none ∧
    addVote (decodesTo [63]) (addProcess (decodesTo []) freshScrutinizer [1])
      { ProcessID := [1], VotePackage := "" } ≠ none := by
  unfold Is64x64
  decide


/-! ## The list of processes and the index of transactions -/

theorem drop_length_takeWhile {α : Type} (p : α → Bool) (l : List α) :
    l.drop (l.takeWhile p).length = l.dropWhile p := by
  induction l with
  | nil => rfl
  | cons a l ih =>
    simp only [List.takeWhile_cons, List.dropWhile_cons]
    cases p a with
    | true => simpa using ih
    | false => rfl

/-- What the loop of `ProcessList` appends: the keys after the position of the
iterator, `max` of them at most. -/
theorem processListLoop_eq (fuel : Nat) (iter : Iterator) (max : Int)
    (procList : List (List Byte)) (h : iter.keys.length < iter.pos + fuel) :
    processListLoop fuel iter max procList =
      procList ++ (iter.keys.drop iter.pos).take max.toNat := by
  induction fuel generalizing iter max procList with
  | zero =>
    have : iter.keys.drop iter.pos = [] := List.drop_eq_nil_of_le (by omega)
    simp [processListLoop, this]
  | succ fuel ih =>
    unfold processListLoop Iterator.Next
    by_cases hp : iter.pos < iter.keys.length
    · rw [if_pos hp]
      simp only
      by_cases hm : max < 1
      · rw [if_pos hm]
        have : max.toNat = 0 := by omega
        simp [this]
      · rw [if_neg hm, ih _ _ _ (by simp only; omega)]
        have hmax : max.toNat = (max - 1).toNat + 1 := by omega
        have hkey : ({ iter with pos := iter.pos + 1 } : Iterator).Key = iter.keys[iter.pos] := by
          simp [Iterator.Key, List.getD_eq_getElem?_getD, List.getElem?_eq_getElem hp]
        rw [hkey, hmax, List.drop_eq_getElem_cons hp, List.take_succ_cons]
        simp
    · rw [if_neg hp]
      have : iter.keys.drop iter.pos = [] := List.drop_eq_nil_of_le (by omega)
      simp [this]

/-- What `ProcessList` returns, for every storage: with a `from`, the key on which
`Seek` lands, the first one that is not below `from`, is passed over by the
first `Next` of the loop. -/
theorem ProcessList_eq (s : Scrutinizer) (max : Int) (from_ : List Byte) :
    ProcessList s max from_ =
      (if from_.length > 0 then
          ((iterKeys s.Storage).dropWhile (fun k => bytesLt k from_)).drop 1
        else iterKeys s.Storage).take max.toNat := by
  unfold ProcessList
  simp only
  by_cases hf : from_.length > 0
  · rw [if_pos hf, if_pos hf, processListLoop_eq _ _ _ _ (by
      simp only [Iterator.Seek, NewIterator]; omega)]
    simp only [Iterator.Seek, NewIterator, List.nil_append]
    rw [← drop_length_takeWhile, List.drop_drop]
  · rw [if_neg hf, if_neg hf, processListLoop_eq _ _ _ _ (by
      simp only [NewIterator]; omega)]
    simp [NewIterator]

/-- C16 on the code: whatever the storage, `ProcessList(max, from)` with a `from`
drops the keys below `from` and one key more, the one `Seek` lands on. With
the processes `a` and `c` stored, `ProcessList(10, "b")` is empty although `c`
comes strictly after `b`; `ProcessList(10, "a")` is `[c]`, and without `from`
the list starts from the smallest id and is capped by `max`. -/
theorem ProcessList_skips_first_after_absent_from (s : Scrutinizer) (max : Int)
    (from_ : List Byte) :
    ProcessList s max from_ =
      (if from_.length > 0 then
          ((iterKeys s.Storage).dropWhile (fun k => bytesLt k from_)).drop 1
        else iterKeys s.Storage).take max.toNat ∧
    iterKeys scrutinizerAC.Storage = [[97], [99]] ∧
    bytesLt [98] [99] = true ∧
    ProcessList scrutinizerAC 10 [98] = [] ∧
    ProcessList scrutinizerAC 10 [97] = [[99]] ∧
    ProcessList scrutinizerAC 10 [] = [[97], [99]] ∧
    ProcessList scrutinizerAC 1 [] = [[97]] ∧
    ProcessList scrutinizerAC 0 [] = [] := by
  refine ⟨ProcessList_eq s max from_, ?_⟩
  decide

/-- What a sequence of `OnNewTx` calls does to the counter and to the pool, as
long as the counter does not pass `2 ^ 64`. -/
theorem onNewTxs_spec (txs : List (Nat × Int)) (s : Scrutinizer)
    (h : s.countTotalTransactions + txs.length < 2 ^ 64) :
    (onNewTxs s txs).countTotalTransactions = s.countTotalTransactions + txs.length ∧
    (onNewTxs s txs).newTxPool = s.newTxPool ++
      List.zipWith (fun k tx => ({ Index := k, BlockHeight := tx.1, TxBlockIndex := tx.2 } :
        TxReference)) (List.range' (s.countTotalTransactions + 1) txs.length) txs ∧
    (onNewTxs s txs).Storage = s.Storage := by
  induction txs generalizing s with
  | nil => simp [onNewTxs]
  | cons tx txs ih =>
    simp only [List.length_cons] at h
    have hmod : (s.countTotalTransactions + 1) % 2 ^ 64 = s.countTotalTransactions + 1 :=
      Nat.mod_eq_of_lt (by omega)
    have hstep : onNewTxs s (tx :: txs) = onNewTxs (OnNewTx s tx.1 tx.2) txs := rfl
    have hc : (OnNewTx s tx.1 tx.2).countTotalTransactions = s.countTotalTransactions + 1 := by
      simp only [OnNewTx, hmod]
    obtain ⟨h1, h2, h3⟩ := ih (OnNewTx s tx.1 tx.2) (by rw [hc]; omega)
    rw [hstep, h1, h2, h3, hc]
    refine ⟨by simp only [List.length_cons]; omega, ?_, rfl⟩
    simp only [OnNewTx, hmod, List.length_cons, List.range'_succ, List.zipWith_cons_cons,
      List.append_assoc, List.singleton_append]

/-- C17: starting from a fresh scrutinizer, after `N` calls of `OnNewTx`, with
`N` below `2 ^ 64`, `TransactionCount()` is `N`, and the pool holds `N`
references whose indices are `1, 2, ..., N` in call order and whose block
heights and transaction indices are those of the calls, in call order. -/
theorem OnNewTx_sequential (txs : List (Nat × Int)) (h : txs.length < 2 ^ 64) :
    TransactionCount (onNewTxs freshScrutinizer txs) = txs.length ∧
    (onNewTxs freshScrutinizer txs).newTxPool.length = txs.length ∧
    (onNewTxs freshScrutinizer txs).newTxPool.map (fun r => r.Index)
      = List.range' 1 txs.length ∧
    (onNewTxs freshScrutinizer txs).newTxPool.map (fun r => (r.BlockHeight, r.TxBlockIndex))
      = txs := by
  obtain ⟨h1, h2, -⟩ := onNewTxs_spec txs freshScrutinizer
    (by simp only [freshScrutinizer]; omega)
  have hz : ∀ (ks : List Nat) (l : List (Nat × Int)), ks.length = l.length →
      (List.zipWith (fun k tx => ({ Index := k, BlockHeight := tx.1, TxBlockIndex := tx.2 } :
        TxReference)) ks l).map (fun r => r.Index) = ks ∧
      (List.zipWith (fun k tx => ({ Index := k, BlockHeight := tx.1, TxBlockIndex := tx.2 } :
        TxReference)) ks l).map (fun r => (r.BlockHeight, r.TxBlockIndex)) = l := by
    intro ks
    induction ks with
    | nil =>
      intro l hl
      cases l with
      | nil => exact ⟨rfl, rfl⟩
      | cons a l => simp at hl
    | cons k ks ih =>
      intro l hl
      cases l with
      | nil => simp at hl
      | cons a l =>
        obtain ⟨i1, i2⟩ := ih l (by simpa using hl)
        simp [i1, i2]
  have hc0 : freshScrutinizer.countTotalTransactions = 0 := rfl
  have hp0 : freshScrutinizer.newTxPool = [] := rfl
  rw [hc0, Nat.zero_add] at h1 h2
  rw [hp0, List.nil_append] at h2
  obtain ⟨z1, z2⟩ := hz (List.range' 1 txs.length) txs (by simp)
  refine ⟨h1, ?_, ?_, ?_⟩
  · rw [h2]; simp
  · rw [h2]; exact z1
  · rw [h2]; exact z2

/-- Witness of C17: three calls. -/
theorem OnNewTx_sequential_witness :
    TransactionCount (onNewTxs freshScrutinizer [(7, 0), (7, 1), (9, 0)]) = 3 ∧
    (onNewTxs freshScrutinizer [(7, 0), (7, 1), (9, 0)]).newTxPool =
      [{ Index := 1, BlockHeight := 7, TxBlockIndex := 0 },
       { Index := 2, BlockHeight := 7, TxBlockIndex := 1 },
       { Index := 3, BlockHeight := 9, TxBlockIndex := 0 }] ∧
    (onNewTxs freshScrutinizer [(7, 0), (7, 1), (9, 0)]).newTxPool.map (fun r => r.Index)
      = List.range' 1 3 :=
  ⟨(OnNewTx_sequential [(7, 0), (7, 1), (9, 0)] (by decide)).1, by decide,
    (OnNewTx_sequential [(7, 0), (7, 1), (9, 0)] (by decide)).2.2.1⟩

/-! ## Dumps, sizes and node lookups -/

set_option maxRecDepth 100000 in
/-- C18, as stated, fails: on a storage whose node lookups fail with an error
that is not "not found", `HashExist` returns false and no error. -/
theorem HashExist_counterexample :
    closedRead.getNode treeOneClaim treeOneClaim.key = Except.error "leveldb: closed" ∧
    stringToHash smtLib (Root smtLib treeOneClaim) = Except.ok treeOneClaim.key ∧
    HashExist smtLib closedRead treeOneClaim (Root smtLib treeOneClaim) = Except.ok false := by
  decide

/-- C18, amended: `HashExist` returns the error of the decoding of the hash
string; once the hash is decoded it returns no error: false when the node
lookup fails, with "not found" or with any other error, or gives no node, and
true when it gives a node. -/
theorem HashExist_spec {τ π : Type} (lib : MerkleTreeLib τ π) (rd : MerkleTreeReadLib τ)
    (t : τ) (hash : String) :
    (∀ err, stringToHash lib hash = Except.error err →
      HashExist lib rd t hash = Except.error err) ∧
    (∀ h, stringToHash lib hash = Except.ok h →
      (∀ err, rd.getNode t h = Except.error err →
        HashExist lib rd t hash = Except.ok false) ∧
      (rd.getNode t h = Except.ok none → HashExist lib rd t hash = Except.ok false) ∧
      (∀ n, rd.getNode t h = Except.ok (some n) →
        HashExist lib rd t hash = Except.ok true)) := by
  constructor
  · intro err h
    unfold HashExist
    rw [h]
  · intro h hh
    unfold HashExist
    rw [hh]
    refine ⟨fun err he => by simp only [he], fun he => by simp only [he],
      fun n he => by simp only [he]⟩

set_option maxRecDepth 100000 in
/-- Witness of C18 amended: a key that is not in `treeOneClaim`, and its root. -/
theorem HashExist_spec_witness :
    HashExist smtLib smtRead treeOneClaim "0x01" = Except.ok false ∧
    HashExist smtLib smtRead treeOneClaim (Root smtLib treeOneClaim) = Except.ok true :=
  have h1 : stringToHash smtLib "0x01"
      = Except.ok ⟨[1] ++ List.replicate 31 0, by decide⟩ := by decide
  have h2 : stringToHash smtLib (Root smtLib treeOneClaim) = Except.ok treeOneClaim.key := by
    decide
  ⟨((HashExist_spec smtLib smtRead treeOneClaim "0x01").2 _ h1).1 "key not found" (by decide),
    ((HashExist_spec smtLib smtRead treeOneClaim (Root smtLib treeOneClaim)).2 _ h2).2.2
      treeOneClaim.toTreeNode (by decide)⟩

set_option maxRecDepth 100000 in
/-- C19 on the code: whatever the library and the tree, with an empty `root` the
three methods hand the zero hash to the library, not a nil pointer. On
`treeOneClaim`, whose root is not the zero hash, `Dump("")` has no claim while
`Dump(Root())` has one, `Size("")` is 0 while `Size(Root())` is 1, and
`DumpPlain("", true)` is empty while `DumpPlain(Root(), true)` holds the
payload. -/
theorem empty_root_is_zero_hash {τ π : Type} (lib : MerkleTreeLib τ π)
    (rd : MerkleTreeReadLib τ) (t : τ) (responseBase64 : Bool) :
    Dump lib rd t "" = rd.dumpClaims t (some HashZero) ∧
    Size lib rd t "" = (((rd.walk t (some HashZero)).1.filter (fun n => n.isLeaf)).length,
      (rd.walk t (some HashZero)).2) ∧
    DumpPlain lib rd t "" responseBase64 =
      (dumpPlainVisit rd responseBase64 (rd.walk t (some HashZero)).1 []).map
        (fun response => (response, (rd.walk t (some HashZero)).2)) ∧
    treeOneClaim.key ≠ HashZero ∧
    Dump smtLib smtRead treeOneClaim "" = ([], none) ∧
    (Dump smtLib smtRead treeOneClaim (Root smtLib treeOneClaim)).1.length = 1 ∧
    Size smtLib smtRead treeOneClaim "" = (0, none) ∧
    Size smtLib smtRead treeOneClaim (Root smtLib treeOneClaim) = (1, none) ∧
    DumpPlain smtLib smtRead treeOneClaim "" true = some ([], none) ∧
    DumpPlain smtLib smtRead treeOneClaim (Root smtLib treeOneClaim) true
      = some (["AQID"], none) := by
  refine ⟨rfl, rfl, rfl, ?_⟩
  decide

/-! ## The failure paths of `ImportAsPublic` -/

/-- The path of `ImportAsPublic` on which the import of the dump fails, for every
registry: the error of the import is returned at once, and the census that
`New` registered stays in `censusMap`. -/
theorem ImportAsPublic_import_error {σ η : Type} (env : CensusEnv σ η) (c c1 : CensusDB σ η)
    (data : List Byte) (cdata : CensusDump) (dump rootHash : List Byte)
    (ref : CensusRef η) (tree : η) (w : σ) (err : String)
    (hj : env.jsonUnmarshal data = Except.ok cdata)
    (hd : cdata.Data = some dump) (hr : cdata.RootHash = some rootHash)
    (he : c.Exists rootHash = false)
    (hn : c.New env rootHash cdata.Type_ cdata.Indexed true none = (Except.ok ref, c1))
    (ht : ref.tree = some tree)
    (hi : env.importDump tree (env.decompressBytes dump) c1.world = (some err, w)) :
    c.ImportAsPublic env data = (some err, { c1 with world := w }) ∧
    (c.ImportAsPublic env data).2.Exists rootHash = true ∧
    (c.ImportAsPublic env data).2.pending = c1.pending := by
  have h1 : c.ImportAsPublic env data = (some err, { c1 with world := w }) := by
    unfold CensusDB.ImportAsPublic
    rw [hj]
    simp only [hd, hr, he, hn, ht, hi]
    simp
  refine ⟨h1, ?_, by rw [h1]⟩
  rw [h1]
  simp [CensusDB.Exists, New_ok_cached env c c1 rootHash _ _ _ _ ref hn]

/-- C11 on the code: `ImportAsPublic(brokenDump)` on an empty registry returns
the error of the import of the dump, and the census `[9]`, which was not
registered before the call, is registered after it, with its record in the
database; no goroutine is pending that would remove it. -/
theorem ImportAsPublic_leaves_census_registered :
    (NewCensusDB [] [] : CensusDB (List SimpleTree) String).Exists [9] = false ∧
    (CensusDB.ImportAsPublic strictEnv (NewCensusDB [] []) brokenDump).1
      = some "could not import dump" ∧
    (CensusDB.ImportAsPublic strictEnv (NewCensusDB [] []) brokenDump).2.Exists [9] = true ∧
    kvGet (CensusDB.ImportAsPublic strictEnv (NewCensusDB [] []) brokenDump).2.db
      (censusDBreferencePrefix ++ [9])
      = some { AuthToken := none, CensusType := 0, Indexed := false, IsPublic := true } ∧
    (CensusDB.ImportAsPublic strictEnv (NewCensusDB [] []) brokenDump).2.pending = [] ∧
    ((CensusDB.ImportAsPublic strictEnv (NewCensusDB [] []) brokenDump).2.runPending
      strictEnv).Exists [9] = true := by
  decide

/-! ## The options of `New` and of `Load` -/

/-- The options of `Load` are those of `New` with `IndexAsKeysCensus` false,
when the reference holds the census type given to `New`. -/
theorem loadOptions_eq {η : Type} (censusID : List Byte) (ref : CensusRef η) (indexed : Bool) :
    loadOptions censusID ref
      = { newOptions censusID ref.CensusType indexed with IndexAsKeysCensus := false } := by
  rfl

set_option maxRecDepth 100000 in
/-- C21 on the code: a census is created by `New` on an empty registry and,
with the same database and nothing in memory, loaded by `Load`, the calls to
package `censustree` being kept. For every census id, type, indexed flag,
public flag and token, `New` opens the tree with name `censusName(id)`,
`MaxLevels` 256, the census type and `IndexAsKeysCensus = indexed`, and `Load`
opens it with the same name, `MaxLevels` and census type but with
`IndexAsKeysCensus = false`; both publish the tree exactly when the public
flag is set. So the calls of `Load` are those of `New` exactly when `indexed`
is false. For the census `[1]` of type 0 with `indexed` true, `New` opens
`cs_01` with `IndexAsKeysCensus` true and `Load` with `IndexAsKeysCensus`
false, although the reference read back has `Indexed` true. -/
theorem Load_options_differ_when_indexed (censusID : List Byte) (censusType : Int)
    (indexed public_ : Bool) (authToken : Option UUID) :
    (CensusDB.New traceEnv (NewCensusDB [] []) censusID censusType indexed public_ authToken).2.world
      = TreeCall.opened { Name := censusName censusID, MaxLevels := 256,
                          CensusType := censusType, IndexAsKeysCensus := indexed }
        :: (if public_ then [TreeCall.published (censusName censusID)] else []) ∧
    (CensusDB.Load traceEnv
        (NewCensusDB (CensusDB.New traceEnv (NewCensusDB [] []) censusID censusType indexed
          public_ authToken).2.db [])
        censusID none).2.world
      = TreeCall.opened { Name := censusName censusID, MaxLevels := 256,
                          CensusType := censusType, IndexAsKeysCensus := false }
        :: (if public_ then [TreeCall.published (censusName censusID)] else []) ∧
    ((CensusDB.Load traceEnv
        (NewCensusDB (CensusDB.New traceEnv (NewCensusDB [] []) censusID censusType indexed
          public_ authToken).2.db [])
        censusID none).2.world
      = (CensusDB.New traceEnv (NewCensusDB [] []) censusID censusType indexed public_
          authToken).2.world ↔ indexed = false) ∧
    (CensusDB.New traceEnv (NewCensusDB [] []) [1] 0 true false none).2.world
      = [TreeCall.opened { Name := "cs_01", MaxLevels := 256, CensusType := 0,
                           IndexAsKeysCensus := true }] ∧
    (CensusDB.Load traceEnv
        (NewCensusDB (CensusDB.New traceEnv (NewCensusDB [] []) [1] 0 true false none).2.db [])
        [1] none).2.world
      = [TreeCall.opened { Name := "cs_01", MaxLevels := 256, CensusType := 0,
                           IndexAsKeysCensus := false }] ∧
    ((CensusDB.Load traceEnv
        (NewCensusDB (CensusDB.New traceEnv (NewCensusDB [] []) [1] 0 true false none).2.db [])
        [1] none).1.toOption.map (fun ref => ref.Indexed)) = some true := by
  have hnew : (CensusDB.New traceEnv (NewCensusDB [] []) censusID censusType indexed public_
      authToken).2.world
      = TreeCall.opened { Name := censusName censusID, MaxLevels := 256,
                          CensusType := censusType, IndexAsKeysCensus := indexed }
        :: (if public_ then [TreeCall.published (censusName censusID)] else []) := by
    cases public_ <;>
      simp [CensusDB.New, CensusDB.Exists, NewCensusDB, kvGet, traceEnv, newOptions,
        CensusDB.addCensusRefToDB]
  have hload : (CensusDB.Load traceEnv
        (NewCensusDB (CensusDB.New traceEnv (NewCensusDB [] []) censusID censusType indexed
          public_ authToken).2.db [])
        censusID none).2.world
      = TreeCall.opened { Name := censusName censusID, MaxLevels := 256,
                          CensusType := censusType, IndexAsKeysCensus := false }
        :: (if public_ then [TreeCall.published (censusName censusID)] else []) := by
    cases public_ <;>
      simp [CensusDB.New, CensusDB.Load, CensusDB.Exists, NewCensusDB, kvGet, kvSet, traceEnv,
        newOptions, loadOptions, CensusDB.addCensusRefToDB, CensusDB.getCensusRefFromDB,
        checkAuth]
  refine ⟨hnew, hload, ?_, ?_⟩
  · rw [hnew, hload]
    cases indexed <;> simp
  · decide

end Vocdoni
